import Mathlib

/-!
Verification development for the `charms.declarative` reactive-evaluation
engine.  The Python modules `charms/declarative/core/{utils,ro_types,
predicates,reactor_core}.py` are shallowly embedded below: pure functions
become Lean functions, the mutable reactor (an `OrderedDict`) becomes an
association list threaded through the registration functions, Python
exceptions become an explicit error type carried in `Except`, and the
evaluator's work-queue loop becomes a fuel-indexed structural recursion that
additionally records a trace of the observable callback events (function
invocations and context writes).
-/

namespace CharmsDecl

/-- Single-quote character as a string, used when assembling the error
message strings that the Python code builds with `'{}'` formatting. -/
def sq : String := String.singleton (Char.ofNat 39)

/-! ## utils.py -/

/-- The Python keyword list consulted by `keyword.iskeyword`. -/
def pyKeywords : List String :=
  ["False", "None", "True", "and", "as", "assert", "async", "await",
   "break", "class", "continue", "def", "del", "elif", "else", "except",
   "finally", "for", "from", "global", "if",
   "import", "in", "is", "lambda", "nonlocal", "not", "or", "pass",
   "raise", "return", "try", "while", "with", "yield"]

/-- The character translation table `T` from `utils.py`:
a `-` or `.` becomes `_`; a `/` or `\` becomes `__`. -/
def translateKey (s : String) : String :=
  s.data.foldl
    (fun acc c =>
      if c = '-' ∨ c = '.' then acc ++ "_"
      else if c = '/' ∨ c = '\\' then acc ++ "__"
      else acc.push c) ""

def isIdentStart (c : Char) : Bool := c.isAlpha || c = '_'

def isIdentChar (c : Char) : Bool := c.isAlphanum || c = '_'

/-- `str.isidentifier` restricted to ASCII strings (every name appearing in
the claims is ASCII, where Python's rule is exactly this one). -/
def isPyIdentifier (s : String) : Bool :=
  match s.data with
  | [] => false
  | c :: cs => isIdentStart c && cs.all isIdentChar

/-! ## Python exceptions

The repository's `charms/declarative/core/exceptions.py` is imported by
`reactor_core.py` but the module itself only declares the exception classes;
they are embedded as the tags of one error type.  `attributeError`,
`assertionError` and `keyError` stand for the built-in Python exceptions of
those names, `fuelOut` is the artificial tag returned when the fuel of the
fuel-indexed embeddings runs out (the Python originals terminate on every
input the claims involve). -/

inductive PyErr where
  | attributeError : PyErr
  | assertionError : PyErr
  | keyError : PyErr
  | keyExists : PyErr
  | reactorError (msg : String) : PyErr
  | abortFunction : PyErr
  | abortExecution : PyErr
  | fuelOut : PyErr
deriving Repr, DecidableEq

/-- `maybe_format_key` from `utils.py` on strings: translate the name and
require the result to be an identifier that is not a keyword, otherwise
raise `AttributeError`.  (The non-string pass-through branch is irrelevant
here: all modelled keys are strings.) -/
def maybe_format_key (name : String) : Except PyErr String :=
  let key := translateKey name
  if isPyIdentifier key && !(pyKeywords.contains key) then .ok key
  else .error .attributeError

/-! ## ro_types.py: the lazy `Callable` cell

The value universe is restricted to scalars and function identifiers; the
semantics of calling a function identifier is supplied by an environment.
`resolve_value` is the identity on this fragment: the unwrap loop in
`Callable.__call__` only ever hands it a non-callable value, and on scalars
the Python `resolve_value` returns its argument unchanged (the mapping and
sequence branches build wrapper objects that no claim exercises). -/

inductive PyVal where
  | noneV : PyVal
  | int (n : Int) : PyVal
  | str (s : String) : PyVal
  | bool (b : Bool) : PyVal
  | fn (id : Nat) : PyVal
deriving Repr, DecidableEq

structure FnEnv where
  /-- Result of calling the zero-argument function with this identifier:
  either a value (possibly another callable) or a raised exception. -/
  callSem : Nat → Except Unit PyVal

/-- `resolve_value` restricted to the scalar fragment: the identity. -/
def resolve_value (v : PyVal) : PyVal := v

/-- The `while True: _callable = _callable(); if not callable(...): break`
loop of `Callable.__call__`, with a counter of how many times a wrapped
function was invoked.  `fuel` bounds the length of the callable chain. -/
def forceChain (env : FnEnv) : Nat → Nat → Nat → (Except Unit PyVal) × Nat
  | 0, _, count => (.error (), count)
  | Nat.succ fuel, f, count =>
    match env.callSem f with
    | .error e => (.error e, count + 1)
    | .ok (.fn f2) => forceChain env fuel f2 (count + 1)
    | .ok v => (.ok v, count + 1)

/-- The `_attrs` dictionary of a `Callable` instance: the wrapped function,
the `called` flag and the `result` slot (initialised to `None`). -/
structure CallableObj where
  fn : Nat
  called : Bool
  result : PyVal
deriving Repr, DecidableEq

/-- `Callable(fn)`: store the function, `called = False`, `result = None`. -/
def CallableObj.make (f : Nat) : CallableObj := ⟨f, false, .noneV⟩

/-- `Callable.__call__`.  Mirrors the source exactly: when not yet called,
the `called` flag is set to `True` *before* the unwrap loop runs, so an
exception escaping the loop leaves the object marked as called with its
`result` slot still holding the initial `None`.  Returns the call's outcome,
the mutated object and the number of wrapped-function invocations made. -/
def CallableObj.call (env : FnEnv) (fuel : Nat) (obj : CallableObj) :
    (Except Unit PyVal) × CallableObj × Nat :=
  if obj.called then (.ok obj.result, obj, 0)
  else
    let obj1 : CallableObj := { obj with called := true }
    match forceChain env fuel obj.fn 0 with
    | (.error e, c) => (.error e, obj1, c)
    | (.ok v, c) =>
      let r := resolve_value v
      (.ok r, { obj1 with result := r }, c)

/-- Call a `Callable` object `n` times in sequence, returning the final
object and the total number of wrapped-function invocations. -/
def CallableObj.callN (env : FnEnv) (fuel : Nat) : Nat → CallableObj → CallableObj × Nat
  | 0, obj => (obj, 0)
  | Nat.succ n, obj =>
    let step := CallableObj.call env fuel obj
    let rest := CallableObj.callN env fuel n step.2.1
    (rest.1, step.2.2 + rest.2)

/-! ## predicates.py: `DeferredBasicStringComparitor`

A comparator instance holds the class-level reference list and the index of
its item in that list.  Each comparison operator returns a lazy boolean
cell; a deferred cell is embedded as the `Except`-outcome its forcing
produces, so an operator has type `Except e (Except e Bool)`: the outer
layer is what happens at comparison-construction time, the inner layer what
happens when the returned cell is forced.  Only string right-hand sides are
modelled (the claims only involve strings). -/

structure DBSComparitor where
  list : List String
  index : Nat
deriving Repr, DecidableEq

/-- `DeferredBasicStringComparitor.__init__`: `self._list.index(item)`,
with the `ValueError` for a missing item re-raised as `KeyError`. -/
def DBSComparitor.make (list : List String) (item : String) :
    Except PyErr DBSComparitor :=
  if list.contains item then .ok ⟨list, list.indexOf item⟩
  else .error .keyError

/-- `__eq__`: the membership check runs eagerly, before the lazy cell is
built; the deferred body compares `self.index` with `_list.index(other)`. -/
def DBSComparitor.eqOp (c : DBSComparitor) (other : String) :
    Except PyErr (Except PyErr Bool) :=
  if c.list.contains other then
    .ok (.ok (decide (c.index = c.list.indexOf other)))
  else .error .keyError

/-- `__ne__`: `Callable(lambda: not self.__eq__(other)())` — the call to
`__eq__`, and with it the membership check, happens inside the lambda, i.e.
only when the returned cell is forced. -/
def DBSComparitor.neOp (c : DBSComparitor) (other : String) :
    Except PyErr (Except PyErr Bool) :=
  .ok (do
    let inner ← c.eqOp other
    let b ← inner
    pure (!b))

/-- `__lt__`: eager membership check, deferred index comparison. -/
def DBSComparitor.ltOp (c : DBSComparitor) (other : String) :
    Except PyErr (Except PyErr Bool) :=
  if c.list.contains other then
    .ok (.ok (decide (c.index < c.list.indexOf other)))
  else .error .keyError

/-- `__ge__`: `Callable(lambda: not self.__lt__(other)())` — deferred. -/
def DBSComparitor.geOp (c : DBSComparitor) (other : String) :
    Except PyErr (Except PyErr Bool) :=
  .ok (do
    let inner ← c.ltOp other
    let b ← inner
    pure (!b))

/-- `__gt__`: eager membership check, deferred index comparison. -/
def DBSComparitor.gtOp (c : DBSComparitor) (other : String) :
    Except PyErr (Except PyErr Bool) :=
  if c.list.contains other then
    .ok (.ok (decide (c.list.indexOf other < c.index)))
  else .error .keyError

/-- `__le__`: `Callable(lambda: not self.__gt__(other)())` — deferred. -/
def DBSComparitor.leOp (c : DBSComparitor) (other : String) :
    Except PyErr (Except PyErr Bool) :=
  .ok (do
    let inner ← c.gtOp other
    let b ← inner
    pure (!b))

/-! ## reactor_core.py: data model

Functions, storables and predicates are referenced by `Nat` identifiers
(mirroring Python function identity); their behaviour is supplied by an
environment when the evaluator runs.  The reactor `OrderedDict` becomes an
association list: insertion of a fresh key appends, overwriting an existing
key replaces in place, exactly the `OrderedDict` ordering contract.  A
Python `set()` of keys becomes a duplicate-free list in insertion order. -/

inductive RType where
  | INPUT : RType
  | COMPUTE : RType
  | OUTPUT : RType
deriving Repr, DecidableEq

structure ReactorItemVariant where
  item : Nat
  dependencies : List String
  predicates : List Nat
  persistent : Bool
deriving Repr, DecidableEq

structure ReactorItem where
  type_ : RType
  key : String
  name : String
  variants : List ReactorItemVariant
  dependents : List String
deriving Repr, DecidableEq

structure ResolvedItem where
  type_ : RType
  key : String
  name : String
  item : Nat
  dependents : List String
  dependencies : List String
  persistent : Bool
deriving Repr, DecidableEq

abbrev Reactor := List (String × ReactorItem)

/-- `reactor[k]` lookup (first binding wins, as in a dict). -/
def rLookup (r : Reactor) (k : String) : Option ReactorItem :=
  match r.find? (fun kv => kv.1 == k) with
  | some kv => some kv.2
  | none => none

/-- `reactor[k] = v`: replace the binding in place if the key exists,
otherwise append — the `OrderedDict` assignment contract. -/
def rSet : Reactor → String → ReactorItem → Reactor
  | [], k, v => [(k, v)]
  | kv :: rest, k, v =>
    if kv.1 = k then (k, v) :: rest else kv :: rSet rest k v

/-- Add an element to a Python `set()` modelled as a dup-free list. -/
def addKey (s : List String) (k : String) : List String :=
  if s.contains k then s else s ++ [k]

/-! ## reactor_core.py: registration -/

/-- `_assert_valid_entry`: when the incoming entry is a default
(`predicates is None` at the call sites) and the key already exists, raise
`AssertionError` if any registered variant has an empty predicate list. -/
def _assert_valid_entry (reactor : Reactor) (name : String)
    (new_is_default : Bool) : Except PyErr Unit :=
  match maybe_format_key name with
  | .error e => .error e
  | .ok key =>
    if !new_is_default then .ok ()
    else
      match rLookup reactor key with
      | none => .ok ()
      | some item =>
        if item.variants.any (fun v => v.predicates.isEmpty) then
          .error .assertionError
        else .ok ()

/-- `_add_input`.  `predicates` is `Option` to keep Python's distinction
between the default argument `None` and an explicitly passed list; the
stored predicate list is `predicates or []`. -/
def _add_input (reactor : Reactor) (name : String) (storable : Nat)
    (predicates : Option (List Nat)) (persistent : Bool) :
    Except PyErr Reactor :=
  match _assert_valid_entry reactor name predicates.isNone with
  | .error e => .error e
  | .ok _ =>
    match maybe_format_key name with
    | .error e => .error e
    | .ok key =>
      let variant : ReactorItemVariant :=
        ⟨storable, [], predicates.getD [], persistent⟩
      match rLookup reactor key with
      | none =>
        .ok (rSet reactor key ⟨.INPUT, key, name, [variant], []⟩)
      | some item =>
        if item.type_ ≠ .INPUT then
          .error (.reactorError "Attempting to add an input to a non-input cell")
        else
          .ok (rSet reactor key
            { item with variants := item.variants ++ [variant] })

/-- The `[maybe_format_key(d) for d in dependencies]` comprehension: the
first raising key aborts the registration. -/
def formatKeys : List String → Except PyErr (List String)
  | [] => .ok []
  | d :: rest =>
    match maybe_format_key d with
    | .error e => .error e
    | .ok k =>
      match formatKeys rest with
      | .error e => .error e
      | .ok ks => .ok (k :: ks)

/-- `_add_compute_or_output`.  Note the self-dependency guard from the
source: `if key in dependencies` tests the *canonical* key against the
*raw* (uncanonicalized) dependency list, while the stored dependency list
is the canonicalized `dependencies_keys`. -/
def _add_compute_or_output (reactor : Reactor) (type_ : RType) (name : String)
    (function : Nat) (dependencies : List String)
    (predicates : Option (List Nat)) (persistent : Bool) :
    Except PyErr Reactor :=
  match _assert_valid_entry reactor name predicates.isNone with
  | .error e => .error e
  | .ok _ =>
    if type_ = .INPUT then .error .assertionError
    else
      match maybe_format_key name with
      | .error e => .error e
      | .ok key =>
        match formatKeys dependencies with
        | .error e => .error e
        | .ok dependencies_keys =>
          if dependencies.contains key then .error .keyExists
          else
            let variant : ReactorItemVariant :=
              ⟨function, dependencies_keys, predicates.getD [], persistent⟩
            match rLookup reactor key with
            | none =>
              .ok (rSet reactor key ⟨type_, key, name, [variant], []⟩)
            | some item =>
              if item.type_ ≠ type_ then
                .error
                  (.reactorError "Attempting to add a cell to a cell of another type")
              else
                .ok (rSet reactor key
                  { item with variants := item.variants ++ [variant] })

/-! ## reactor_core.py: dependents calculation and cycle check -/

/-- One `reactor[d].dependents.add(key)` step of `_calculate_dependents`:
on a missing key the Python code appends an error string and carries on. -/
def depAddStep (acc : Reactor × List String) (d : String) (key : String) :
    Reactor × List String :=
  match rLookup acc.1 d with
  | some item =>
    (rSet acc.1 d { item with dependents := addKey item.dependents key },
     acc.2)
  | none =>
    (acc.1, acc.2 ++ ["formatted_key(" ++ d ++ ") not in reactor"])

/-- The `for d in variant.dependencies` loop of `_calculate_dependents`. -/
def calcDeps (key : String) : List String → Reactor × List String →
    Reactor × List String
  | [], acc => acc
  | d :: rest, acc => calcDeps key rest (depAddStep acc d key)

/-- The `for variant in reactor_item.variants` loop. -/
def calcVariants (key : String) : List ReactorItemVariant →
    Reactor × List String → Reactor × List String
  | [], acc => acc
  | v :: rest, acc => calcVariants key rest (calcDeps key v.dependencies acc)

/-- The `for key, reactor_item in reactor.items()` loop: the bindings
iterated over are those of the original reactor (mutation only ever
touches `dependents` sets, never the key or variant structure). -/
def calcAll : List (String × ReactorItem) → Reactor × List String →
    Reactor × List String
  | [], acc => acc
  | kv :: rest, acc => calcAll rest (calcVariants kv.1 kv.2.variants acc)

/-- `_calculate_dependents`: walk every variant's dependency list of every
item (in registration order) adding the item's binding key to the
dependency's `dependents` set; aggregate all missing-key errors and raise
one `ReactorError` if any were found. -/
def _calculate_dependents (reactor : Reactor) : Except PyErr Reactor :=
  match calcAll reactor (reactor, []) with
  | (r2, errors) =>
    if errors.isEmpty then .ok r2
    else .error (.reactorError
      ("Formatted keys not found when checking dependencies: " ++
       String.intercalate ", " errors))

/-- The `for i, key in enumerate(_path)` loop at the head of
`__check_circular_dependencies`: for each suffix of the path whose first
key occurs in the dependents set, record the cycle-path string (rendered
with `->`) unless it was already recorded, together with its error line. -/
def cyclePathLoop (dependents : List String) :
    List String → List String × List String → List String × List String
  | [], acc => acc
  | key :: restPath, (errors, path_errors) =>
    if dependents.contains key then
      let str_path := String.intercalate "->" (key :: restPath)
      if path_errors.contains str_path then
        cyclePathLoop dependents restPath (errors, path_errors)
      else
        cyclePathLoop dependents restPath
          (errors ++
             [str_path ++ " has a cicular dependency with key: " ++
              sq ++ key ++ sq],
           path_errors ++ [str_path])
    else cyclePathLoop dependents restPath (errors, path_errors)

/-- The `for key in _dependents` recursion loop of
`__check_circular_dependencies`, abstracted over the recursive call
(`recurse` is the checker at the next depth). -/
def cycleDepsLoop
    (recurse : List String → List String → List String × List String →
      Except PyErr (List String × List String))
    (reactor : Reactor) (path : List String) :
    List String → List String × List String →
      Except PyErr (List String × List String)
  | [], acc => .ok acc
  | key :: rest, acc =>
    if path.contains key then cycleDepsLoop recurse reactor path rest acc
    else
      match rLookup reactor key with
      | none => .error .keyError
      | some item =>
        if item.dependents.isEmpty then
          cycleDepsLoop recurse reactor path rest acc
        else
          match recurse (path ++ [key]) item.dependents acc with
          | .error e => .error e
          | .ok acc2 => cycleDepsLoop recurse reactor path rest acc2

/-- `__check_circular_dependencies`, fuel-indexed.  The fuel only guards
the artifact of association lists with duplicate keys: the Python walk
terminates because the path never repeats a key of the (finite) dict. -/
def cycleCheckFrom (reactor : Reactor) :
    Nat → List String → List String → List String × List String →
      Except PyErr (List String × List String)
  | 0, _, _, _ => .error .fuelOut
  | Nat.succ fuel, path, dependents, acc =>
    cycleDepsLoop (fun p d a => cycleCheckFrom reactor fuel p d a)
      reactor path dependents (cyclePathLoop dependents path acc)

/-- The `for key, reactor_item in reactor.items()` loop of
`_check_circular_dependencies`: one walk per item, threading the error and
path-string accumulators across all starts. -/
def cycleCheckAll (reactor : Reactor) :
    List (String × ReactorItem) → List String × List String →
      Except PyErr (List String × List String)
  | [], acc => .ok acc
  | kv :: rest, acc =>
    match cycleCheckFrom reactor (reactor.length + 1) [kv.1] kv.2.dependents
        acc with
    | .error e => .error e
    | .ok acc2 => cycleCheckAll reactor rest acc2

/-- `_check_circular_dependencies`: start a walk at every item (in
registration order), accumulating the error and path-string lists across
all starts; raise one aggregated `ReactorError` if any errors were found. -/
def _check_circular_dependencies (reactor : Reactor) : Except PyErr Unit :=
  match cycleCheckAll reactor reactor ([], []) with
  | .error e => .error e
  | .ok acc =>
    if acc.1.isEmpty then .ok ()
    else .error (.reactorError (String.intercalate ", " acc.1))

/-- `_check_reactor`: compute the dependents, then run the cycle check,
wrapping a cycle `ReactorError` in the outer message.  Returns the reactor
with its dependents sets filled in (the Python version mutates in place). -/
def _check_reactor (reactor : Reactor) : Except PyErr Reactor :=
  match _calculate_dependents reactor with
  | .error e => .error e
  | .ok r =>
    match _check_circular_dependencies r with
    | .ok _ => .ok r
    | .error (.reactorError msg) =>
      .error (.reactorError
        ("Reactor has circular dependencies: " ++ sq ++ msg ++ sq))
    | .error e => .error e

/-! ## reactor_core.py: resolution and evaluation

The behaviour of the registered functions, input storables and predicates
is supplied by an environment keyed by their identifiers.  A cell function
either returns a value (`none` is Python's `None`) or raises: the branch
abort, the run abort, or any other exception. -/

inductive FnErr where
  | abortFunction : FnErr
  | abortExecution : FnErr
  | otherExc : FnErr
deriving Repr, DecidableEq

/-- A context value: what the caller-supplied context functions hand to and
receive from the evaluator. -/
abbrev CtxSt := List (String × Option Int)

structure RunEnv where
  /-- Outcome of the `while callable(value)` unwrap loop for an INPUT
  storable identifier. -/
  inputSem : Nat → Except FnErr (Option Int)
  /-- Outcome of calling a COMPUTE/OUTPUT function identifier on a scoped
  context. -/
  funcSem : Nat → CtxSt → Except FnErr (Option Int)
  /-- Outcome of evaluating a predicate identifier (`.error` is a raised
  exception). -/
  predSem : Nat → Except Unit Bool

/-- The `all((p() for p in variant.predicates))` evaluation: predicates run
in list order and the generator short-circuits on the first `False`, so a
later predicate is not evaluated (and cannot raise) after one is false. -/
def evalPredsAll (env : RunEnv) : List Nat → Except Unit Bool
  | [] => .ok true
  | p :: ps =>
    match env.predSem p with
    | .error e => .error e
    | .ok false => .ok false
    | .ok true => evalPredsAll env ps

def mkResolved (item : ReactorItem) (v : ReactorItemVariant) : ResolvedItem :=
  ⟨item.type_, item.key, item.name, v.item, item.dependents,
   v.dependencies, v.persistent⟩

/-- The variant scan of `_resolve_item`: an empty-predicate variant is
remembered as the default (a later one overwrites an earlier one) and the
scan continues; the first predicated variant whose predicates all evaluate
true is selected immediately; a raising predicate aborts the run; when the
scan falls off the end the remembered default (if any) is selected. -/
def resolveScan (env : RunEnv) (default : Option ReactorItemVariant) :
    List ReactorItemVariant → Except PyErr (Option ReactorItemVariant)
  | [] => .ok default
  | v :: vs =>
    if v.predicates.isEmpty then resolveScan env (some v) vs
    else
      match evalPredsAll env v.predicates with
      | .error _ => .error .abortExecution
      | .ok true => .ok (some v)
      | .ok false => resolveScan env default vs

/-- `_resolve_item`: returns the `ResolvedItem` of the selected variant,
`none` when no variant applies, and `AbortExecution` when a predicate
raises. -/
def _resolve_item (env : RunEnv) (item : ReactorItem) :
    Except PyErr (Option ResolvedItem) :=
  match resolveScan env none item.variants with
  | .error e => .error e
  | .ok sel => .ok (sel.map (mkResolved item))

/-- `_process_item`: INPUT cells evaluate their storable through the unwrap
loop; COMPUTE and OUTPUT cells call their function on the context built
from their resolved dependency list; `AbortFunction` and `AbortExecution`
pass through, any other exception is re-raised as `AbortExecution`. -/
def _process_item (env : RunEnv) (ri : ResolvedItem)
    (context_fn : List String → CtxSt) : Except PyErr (Option Int) :=
  let res :=
    match ri.type_ with
    | .INPUT => env.inputSem ri.item
    | .COMPUTE => env.funcSem ri.item (context_fn ri.dependencies)
    | .OUTPUT => env.funcSem ri.item (context_fn ri.dependencies)
  match res with
  | .ok v => .ok v
  | .error .abortFunction => .error .abortFunction
  | .error .abortExecution => .error .abortExecution
  | .error .otherExc => .error .abortExecution

/-- `_find_unprocessed_dependencies`: the dependency keys of a resolved
item that are not yet in the processed set, in dependency-list order. -/
def _find_unprocessed_dependencies (processed : List String)
    (ri : ResolvedItem) : List String :=
  ri.dependencies.filter (fun d => !(processed.contains d))

/-- Resolve each item of a binding list in order, stopping at the first
raising resolution. -/
def resolveItems (env : RunEnv) :
    List (String × ReactorItem) → Except PyErr (List (Option ResolvedItem))
  | [] => .ok []
  | kv :: rest =>
    match _resolve_item env kv.2 with
    | .error e => .error e
    | .ok x =>
      match resolveItems env rest with
      | .error e => .error e
      | .ok q => .ok (x :: q)

/-- `_initialise_queue_with_inputs`: resolve every INPUT item in
registration order (the generator is consumed whole by `deque(...)` before
the loop starts, so a raising predicate aborts before any processing). -/
def _initialise_queue_with_inputs (env : RunEnv) (reactor : Reactor) :
    Except PyErr (List (Option ResolvedItem)) :=
  resolveItems env (reactor.filter (fun kv => kv.2.type_ == RType.INPUT))

/-- The three caller-supplied functions of `_run`, as pure functions of the
external context state (which the evaluator itself never inspects). -/
structure Callbacks where
  detect : CtxSt → String → Bool
  getCtx : CtxSt → List String → CtxSt
  setCtx : CtxSt → String → Option Int → CtxSt

/-- Observable callback events of a run: a cell function/storable
invocation (with the processed set as it stood at the call) and a
`set_context_fn` write. -/
inductive Event where
  | invoke (key : String) (ty : RType) (deps : List String)
      (processedAtCall : List String) : Event
  | setv (name : String) (value : Option Int) : Event
deriving Repr, DecidableEq

/-- Outcome of a run: the error that escaped (if any), the final context
state and the event trace up to the point the run stopped. -/
structure RunOut where
  err : Option PyErr
  state : CtxSt
  trace : List Event
deriving Repr, DecidableEq

/-- The `for d in _find_unprocessed_dependencies(...): queue.appendleft(
_resolve_item(reactor[d]))` loop (and, run a second time, the
`queue.extendleft(...)` duplicate of it in the source): each unprocessed
dependency is resolved and pushed on the front in list order. -/
def pushLeftDeps (env : RunEnv) (reactor : Reactor) :
    List String → List (Option ResolvedItem) →
      Except PyErr (List (Option ResolvedItem))
  | [], q => .ok q
  | d :: rest, q =>
    match rLookup reactor d with
    | none => .error .keyError
    | some item =>
      match _resolve_item env item with
      | .error e => .error e
      | .ok x => pushLeftDeps env reactor rest (x :: q)

/-- The `queue.extend((_resolve_item(reactor[d]) for d in cell.dependents
if d not in processed))` step after a successful cell. -/
def enqueueDependents (env : RunEnv) (reactor : Reactor)
    (processed : List String) :
    List String → List (Option ResolvedItem) →
      Except PyErr (List (Option ResolvedItem))
  | [], q => .ok q
  | d :: rest, q =>
    if processed.contains d then enqueueDependents env reactor processed rest q
    else
      match rLookup reactor d with
      | none => .error .keyError
      | some item =>
        match _resolve_item env item with
        | .error e => .error e
        | .ok x => enqueueDependents env reactor processed rest (q ++ [x])

/-- The `while queue:` loop of `_run`, fuel-indexed.  A `None` at the front
of the queue reproduces the source's `peek_cell.key` attribute access on
`None`: an `AttributeError` escapes the run (the access sits outside every
`try` block).  The dependency push runs twice, as in the source (the
`for`/`appendleft` loop followed by the `extendleft` of the same
generator). -/
def _runLoop (env : RunEnv) (cbs : Callbacks) (reactor : Reactor) :
    Nat → List (Option ResolvedItem) → List String → CtxSt → List Event →
      RunOut
  | 0, _, _, st, tr => ⟨some .fuelOut, st, tr⟩
  | Nat.succ fuel, queue, processed, st, tr =>
    match queue with
    | [] => ⟨none, st, tr⟩
    | none :: _ => ⟨some .attributeError, st, tr⟩
    | some c :: rest =>
      if processed.contains c.key then
        _runLoop env cbs reactor fuel rest processed st tr
      else
        let unproc := _find_unprocessed_dependencies processed c
        match pushLeftDeps env reactor unproc (some c :: rest) with
        | .error e => ⟨some e, st, tr⟩
        | .ok q1 =>
          match pushLeftDeps env reactor unproc q1 with
          | .error e => ⟨some e, st, tr⟩
          | .ok q2 =>
            match q2 with
            | [] => ⟨some .attributeError, st, tr⟩
            | x :: q2rest =>
              if x ≠ some c then
                _runLoop env cbs reactor fuel (x :: q2rest) processed st tr
              else
                let tr1 := tr ++ [.invoke c.key c.type_ c.dependencies processed]
                match _process_item env c (cbs.getCtx st) with
                | .error .abortFunction =>
                  let processed2 := addKey processed c.key
                  if c.type_ ≠ .OUTPUT then
                    _runLoop env cbs reactor fuel q2rest processed2
                      (cbs.setCtx st c.name none) (tr1 ++ [.setv c.name none])
                  else
                    _runLoop env cbs reactor fuel q2rest processed2 st tr1
                | .error e => ⟨some e, st, tr1⟩
                | .ok value =>
                  let processed2 := addKey processed c.key
                  let st2 := if c.type_ ≠ .OUTPUT then cbs.setCtx st c.name value else st
                  let tr2 := if c.type_ ≠ .OUTPUT then tr1 ++ [.setv c.name value] else tr1
                  if !c.persistent || c.type_ == RType.OUTPUT ||
                      cbs.detect st2 c.name then
                    match enqueueDependents env reactor processed2
                        c.dependents q2rest with
                    | .error e => ⟨some e, st2, tr2⟩
                    | .ok q3 =>
                      _runLoop env cbs reactor fuel q3 processed2 st2 tr2
                  else
                    _runLoop env cbs reactor fuel q2rest processed2 st2 tr2

/-- `_run`: validate the reactor (computing the dependents), build the
initial queue from the inputs, then run the loop with an empty processed
set over the caller's initial context state. -/
def _run (env : RunEnv) (cbs : Callbacks) (reactor : Reactor) (fuel : Nat)
    (st : CtxSt) : RunOut :=
  match _check_reactor reactor with
  | .error e => ⟨some e, st, []⟩
  | .ok r2 =>
    match _initialise_queue_with_inputs env r2 with
    | .error e => ⟨some e, st, []⟩
    | .ok q => _runLoop env cbs r2 fuel q [] st []

/-! ## Concrete scenarios used by the claims -/

/-- Does an event mention the cell with this key/name? -/
def eventTouches (k : String) : Event → Bool
  | .invoke key _ _ _ => key == k
  | .setv name _ => name == k

/-- Standard concrete callbacks: an always-true change detector, a scoped
getter filtering the context to the requested keys, and an appending
setter. -/
def cbsStd : Callbacks :=
  ⟨fun _ _ => true,
   fun st deps => st.filter (fun kv => deps.contains kv.1),
   fun st n v => st ++ [(n, v)]⟩

/-- Branch-abort scenario environment: storable 0 is the plain value 1,
function 1 always raises `AbortFunction`, function 2 returns 2. -/
def envC3 : RunEnv :=
  ⟨fun _ => .ok (some 1),
   fun i _ => if i == 1 then .error .abortFunction else .ok (some 2),
   fun _ => .ok false⟩

/-- Branch-abort scenario graph: input `a = 1`; compute `b` over `[a]`
raising branch-abort; compute `c` over `[b]`. -/
def reactorC3 : Except PyErr Reactor := do
  let r ← _add_input [] "a" 0 none true
  let r ← _add_compute_or_output r .COMPUTE "b" 1 ["a"] none true
  _add_compute_or_output r .COMPUTE "c" 2 ["b"] none true

def rC3 : Reactor := reactorC3.toOption.getD []

/-- Unresolvable-input scenario environment: predicate 0 evaluates false. -/
def envC7 : RunEnv :=
  ⟨fun _ => .ok (some 1), fun _ _ => .ok (some 1), fun _ => .ok false⟩

/-- Unresolvable-input scenario graph: input `x` has a single variant
guarded by the false predicate and no default. -/
def reactorC7 : Except PyErr Reactor := _add_input [] "x" 0 (some [0]) true

def rC7 : Reactor := reactorC7.toOption.getD []

/-- Cycle graph `a -> b -> c -> a`: each cell depends on the previous one
(`b` on `a`, `c` on `b`, and `a` wraps around to depend on `c`). -/
def reactorC4cyc : Except PyErr Reactor := do
  let r ← _add_compute_or_output [] .COMPUTE "a" 0 ["c"] none true
  let r ← _add_compute_or_output r .COMPUTE "b" 1 ["a"] none true
  _add_compute_or_output r .COMPUTE "c" 2 ["b"] none true

def rC4cyc : Reactor := reactorC4cyc.toOption.getD []

/-- Acyclic chain `a -> b -> c`. -/
def reactorC4chain : Except PyErr Reactor := do
  let r ← _add_input [] "a" 0 none true
  let r ← _add_compute_or_output r .COMPUTE "b" 1 ["a"] none true
  _add_compute_or_output r .COMPUTE "c" 2 ["b"] none true

def rC4chain : Reactor := reactorC4chain.toOption.getD []

/-- Diamond `a->b, a->c, b->d, c->d`. -/
def reactorC4diamond : Except PyErr Reactor := do
  let r ← _add_input [] "a" 0 none true
  let r ← _add_compute_or_output r .COMPUTE "b" 1 ["a"] none true
  let r ← _add_compute_or_output r .COMPUTE "c" 2 ["a"] none true
  _add_compute_or_output r .COMPUTE "d" 3 ["b", "c"] none true

def rC4diamond : Reactor := reactorC4diamond.toOption.getD []

def rC4diamondChecked : Reactor := (_check_reactor rC4diamond).toOption.getD []

/-- A graph with two distinct cycles, one of them reachable along two
different walks: `s` is an input, `a` depends on `s` and `b`, and `b`
depends on `a`, so the cycle `a->b` is discovered both from the start `s`
and from the start `a`, and the cycle `b->a` from the start `b`. -/
def reactorC4two : Except PyErr Reactor := do
  let r ← _add_input [] "s" 0 none true
  let r ← _add_compute_or_output r .COMPUTE "a" 1 ["s", "b"] none true
  _add_compute_or_output r .COMPUTE "b" 2 ["a"] none true

def rC4two : Reactor := reactorC4two.toOption.getD []

/-- Environment for the memoization witness: function 0 returns function 1,
function 1 returns the integer 5 (a two-link callable chain). -/
def envW8 : FnEnv := ⟨fun i => if i == 0 then .ok (.fn 1) else .ok (.int 5)⟩

/-- Environment whose every function raises. -/
def env9 : FnEnv := ⟨fun _ => .error ()⟩

/-- Reference sequence for the ordinal comparator claims. -/
def c10list : List String := ["apple", "cherry", "banana"]

/-- Resolution-order scenario environment: predicate 1 is true, every
other predicate (in particular predicate 0) is false. -/
def envC2 : RunEnv :=
  ⟨fun _ => .ok none, fun _ _ => .ok none,
   fun p => if p == 1 then .ok true else .ok false⟩

/-- Input `x = 10` (default) registered first, then `x = 20` guarded by the
false predicate. -/
def reactorC2a : Except PyErr Reactor := do
  let r ← _add_input [] "x" 10 none true
  _add_input r "x" 20 (some [0]) true

def rC2a : Reactor := reactorC2a.toOption.getD []

/-- The same two variants registered in the reverse order. -/
def reactorC2b : Except PyErr Reactor := do
  let r ← _add_input [] "x" 20 (some [0]) true
  _add_input r "x" 10 none true

def rC2b : Reactor := reactorC2b.toOption.getD []

/-- Number of empty-predicate ("default") variants held by an item. -/
def defaultCount (it : ReactorItem) : Nat :=
  (it.variants.filter (fun v => v.predicates.isEmpty)).length

/-- The single-default invariant over a reactor. -/
def atMostOneDefault (r : Reactor) : Prop :=
  ∀ kv ∈ r, defaultCount kv.2 ≤ 1

/-- One registration call of the public builder API. -/
inductive RegOp where
  | inp (name : String) (storable : Nat) (predicates : Option (List Nat))
      (persistent : Bool) : RegOp
  | comp (name : String) (function : Nat) (dependencies : List String)
      (predicates : Option (List Nat)) (persistent : Bool) : RegOp
  | outp (name : String) (function : Nat) (dependencies : List String)
      (predicates : Option (List Nat)) (persistent : Bool) : RegOp
deriving Repr, DecidableEq

/-- The `predicates` argument of a registration call. -/
def RegOp.preds : RegOp → Option (List Nat)
  | .inp _ _ p _ => p
  | .comp _ _ _ p _ => p
  | .outp _ _ _ p _ => p

/-- Perform one registration call. -/
def applyOp (r : Reactor) : RegOp → Except PyErr Reactor
  | .inp n s p per => _add_input r n s p per
  | .comp n f d p per => _add_compute_or_output r .COMPUTE n f d p per
  | .outp n f d p per => _add_compute_or_output r .OUTPUT n f d p per

/-- Perform a sequence of registration calls, stopping at the first
failing one. -/
def applyOps : Reactor → List RegOp → Except PyErr Reactor
  | r, [] => .ok r
  | r, op :: ops =>
    match applyOp r op with
    | .error e => .error e
    | .ok r2 => applyOps r2 ops

/-- The reactor binding at `k` lists `k` among its own dependents (the
shape the cycle check rejects at once). -/
def hasDep (r : Reactor) (k : String) : Prop :=
  ∃ it, rLookup r k = some it ∧ k ∈ it.dependents

/-- Every binding of `r2` descends from a binding of `r` with the same
binding key, the same variants and the same `key` field (dependents
calculation only ever touches the `dependents` sets). -/
def originOf (r r2 : Reactor) : Prop :=
  ∀ kv ∈ r2, ∃ it0, (kv.1, it0) ∈ r ∧ it0.variants = kv.2.variants ∧
    it0.key = kv.2.key

/-- Every binding's item carries the binding key in its `key` field — true
of every reactor built through the registration API. -/
def wellKeyedB (r : Reactor) : Bool := r.all (fun kv => kv.2.key == kv.1)

/-- The cycle-walk accumulator never records a path string without also
recording an error line. -/
def GoodAcc (acc : List String × List String) : Prop :=
  acc.2 ≠ [] → acc.1 ≠ []

/-- A queue entry is sound when, if present, its resolved dependency list
does not contain its own key. -/
def elemOK (x : Option ResolvedItem) : Prop :=
  ∀ c, x = some c → ¬ c.key ∈ c.dependencies

/-- An invocation event is good when every resolved dependency of the
invoked cell was already processed at the time of the call. -/
def goodEvent : Event → Prop
  | .invoke _ _ deps processed => ∀ d ∈ deps, d ∈ processed
  | .setv _ _ => True

/-- Environment for the scheduling-invariant witness. -/
def envW1 : RunEnv :=
  ⟨fun _ => .ok (some 1), fun _ _ => .ok (some 2), fun _ => .ok false⟩

/-- Witness graph: input `a`, compute `b` over `[a]`. -/
def reactorW1 : Except PyErr Reactor := do
  let r ← _add_input [] "a" 0 none true
  _add_compute_or_output r .COMPUTE "b" 1 ["a"] none true

def rW1 : Reactor := reactorW1.toOption.getD []

/-! ## General lemmas about the lazy `Callable` cell -/

theorem call_on_called (env : FnEnv) (fuel : Nat) (obj : CallableObj)
    (h : obj.called = true) :
    CallableObj.call env fuel obj = (.ok obj.result, obj, 0) := by
  unfold CallableObj.call
  rw [h]
  simp

theorem callN_on_called (env : FnEnv) (fuel : Nat) (obj : CallableObj)
    (h : obj.called = true) :
    ∀ n, CallableObj.callN env fuel n obj = (obj, 0) := by
  intro n
  induction n with
  | zero => rfl
  | succ n ih =>
    unfold CallableObj.callN
    rw [call_on_called env fuel obj h]
    simp [ih]

/-! ## Claim theorems -/

/-- C8: for a lazy cell whose wrapped computation succeeds, the first call
unwraps the callable chain, normalizes and caches the final value and marks
the cell called; every later call returns the identical cached value with
zero further invocations of the wrapped computation, so calling the cell
`n + 1` times costs exactly the `k` invocations of the first call. -/
theorem c8_theorem (env : FnEnv) (fuel : Nat) (f : Nat) (v : PyVal)
    (obj2 : CallableObj) (k : Nat)
    (h : CallableObj.call env fuel (CallableObj.make f) = (.ok v, obj2, k)) :
    obj2.called = true ∧ obj2.result = v ∧
    (∀ fuel2, CallableObj.call env fuel2 obj2 = (.ok v, obj2, 0)) ∧
    (∀ n, CallableObj.callN env fuel n obj2 = (obj2, 0)) ∧
    (∀ n, CallableObj.callN env fuel (n + 1) (CallableObj.make f) = (obj2, k)) := by
  have hcalled : obj2.called = true ∧ obj2.result = v := by
    unfold CallableObj.call CallableObj.make at h
    simp only [Bool.false_eq_true, if_false] at h
    rcases hfc : forceChain env fuel f 0 with ⟨res, c⟩
    rw [hfc] at h
    cases res with
    | error e => simp at h
    | ok v0 =>
      simp only [resolve_value, Prod.mk.injEq, Except.ok.injEq] at h
      obtain ⟨hv, hobj, hk⟩ := h
      constructor
      · rw [← hobj]
      · rw [← hobj, ← hv]
  refine ⟨hcalled.1, hcalled.2, ?_, ?_, ?_⟩
  · intro fuel2
    rw [call_on_called env fuel2 obj2 hcalled.1, hcalled.2]
  · exact callN_on_called env fuel obj2 hcalled.1
  · intro n
    unfold CallableObj.callN
    rw [h]
    simp [callN_on_called env fuel obj2 hcalled.1 n]

/-- Witness for C8 at a concrete two-link chain: the first of four calls
makes the two chain invocations and caches `5`; a further call returns the
cached `5` with no invocation. -/
theorem c8_witness :
    CallableObj.callN envW8 3 4 (CallableObj.make 0) = (⟨0, true, .int 5⟩, 2) ∧
    CallableObj.call envW8 3 ⟨0, true, .int 5⟩ =
      (.ok (.int 5), ⟨0, true, .int 5⟩, 0) := by
  have h := c8_theorem envW8 3 0 (.int 5) ⟨0, true, .int 5⟩ 2 (by rfl)
  exact ⟨h.2.2.2.2 3, h.2.2.1 3⟩

/-- C9 counterexample: with a wrapped computation that raises, the first
forcing propagates the exception, but a second forcing does *not* invoke
the computation again — it silently returns the memoized `None` placeholder
with zero invocations, contradicting the claim that the failure is not
cached. -/
theorem c9_counterexample :
    CallableObj.call env9 1 (CallableObj.make 0) =
      (.error (), ⟨0, true, .noneV⟩, 1) ∧
    CallableObj.call env9 1 ⟨0, true, .noneV⟩ =
      (.ok .noneV, ⟨0, true, .noneV⟩, 0) ∧
    (CallableObj.call env9 1 ⟨0, true, .noneV⟩).2.2 = 0 ∧
    (CallableObj.call env9 1 ⟨0, true, .noneV⟩).1 ≠ .error () := by
  refine ⟨rfl, rfl, rfl, ?_⟩
  intro h
  simp [CallableObj.call] at h

/-- C9 amended: an exception raised on the first forcing propagates to the
caller, but because the `called` flag is set before the computation runs,
the failure *is* permanent: the cell is left marked called with the `None`
placeholder as result, and every subsequent forcing returns `None` with
zero further invocations of the computation. -/
theorem c9_theorem (env : FnEnv) (fuel : Nat) (f : Nat) (e : Unit)
    (obj2 : CallableObj) (k : Nat)
    (h : CallableObj.call env fuel (CallableObj.make f) = (.error e, obj2, k)) :
    obj2 = ⟨f, true, .noneV⟩ ∧
    (∀ fuel2, CallableObj.call env fuel2 obj2 = (.ok .noneV, obj2, 0)) ∧
    (∀ fuel2 n, CallableObj.callN env fuel2 n obj2 = (obj2, 0)) := by
  have hobj : obj2 = ⟨f, true, .noneV⟩ := by
    unfold CallableObj.call CallableObj.make at h
    simp only [Bool.false_eq_true, if_false] at h
    rcases hfc : forceChain env fuel f 0 with ⟨res, c⟩
    rw [hfc] at h
    cases res with
    | error e2 =>
      simp only [Prod.mk.injEq] at h
      exact h.2.1.symm
    | ok v0 => simp [resolve_value] at h
  have hcalled : obj2.called = true := by rw [hobj]
  refine ⟨hobj, ?_, ?_⟩
  · intro fuel2
    have := call_on_called env fuel2 obj2 hcalled
    rw [this]
    rw [hobj]
  · intro fuel2 n
    exact callN_on_called env fuel2 obj2 hcalled n

/-- Witness for C9's amended statement at the concrete raising cell. -/
theorem c9_witness :
    CallableObj.call env9 1 ⟨0, true, .noneV⟩ =
      (.ok .noneV, ⟨0, true, .noneV⟩, 0) := by
  have h := c9_theorem env9 1 0 () ⟨0, true, .noneV⟩ 1 (by rfl)
  exact h.2.1 1

/-- C10 counterexample: comparing against a value outside the reference
sequence does *not* fail at comparison-construction time for `!=`, `>=`
or `<=`: those operators build their lazy cell successfully and only the
forcing of the cell raises `KeyError`. -/
theorem c10_counterexample :
    DBSComparitor.make c10list "cherry" = .ok ⟨c10list, 1⟩ ∧
    c10list.contains "pineapple" = false ∧
    (DBSComparitor.neOp ⟨c10list, 1⟩ "pineapple").isOk = true ∧
    (DBSComparitor.geOp ⟨c10list, 1⟩ "pineapple").isOk = true ∧
    (DBSComparitor.leOp ⟨c10list, 1⟩ "pineapple").isOk = true :=
  ⟨rfl, rfl, rfl, rfl, rfl⟩

/-- C10 amended: constructing with an item outside the reference sequence
fails with `KeyError`; comparing against an out-of-sequence value fails
eagerly at comparison-construction time for `==`, `<` and `>`, while
`!=`, `>=` and `<=` construct successfully and defer the `KeyError` to the
first forcing of the returned lazy cell. -/
theorem c10_theorem (lst : List String) (item other : String)
    (c : DBSComparitor) (hmk : DBSComparitor.make lst item = .ok c)
    (hno : lst.contains other = false) :
    DBSComparitor.eqOp c other = .error .keyError ∧
    DBSComparitor.ltOp c other = .error .keyError ∧
    DBSComparitor.gtOp c other = .error .keyError ∧
    DBSComparitor.neOp c other = .ok (.error .keyError) ∧
    DBSComparitor.geOp c other = .ok (.error .keyError) ∧
    DBSComparitor.leOp c other = .ok (.error .keyError) ∧
    (∀ item2, lst.contains item2 = false →
      DBSComparitor.make lst item2 = .error .keyError) := by
  have hl : c.list = lst := by
    unfold DBSComparitor.make at hmk
    by_cases hmem : lst.contains item
    · rw [if_pos hmem] at hmk
      cases hmk
      rfl
    · rw [if_neg hmem] at hmk
      cases hmk
  have hno2 : c.list.contains other = false := by rw [hl]; exact hno
  have heq : DBSComparitor.eqOp c other = .error .keyError := by
    unfold DBSComparitor.eqOp
    rw [hno2]
    simp
  have hlt : DBSComparitor.ltOp c other = .error .keyError := by
    unfold DBSComparitor.ltOp
    rw [hno2]
    simp
  have hgt : DBSComparitor.gtOp c other = .error .keyError := by
    unfold DBSComparitor.gtOp
    rw [hno2]
    simp
  refine ⟨heq, hlt, hgt, ?_, ?_, ?_, ?_⟩
  · unfold DBSComparitor.neOp
    rw [heq]
    rfl
  · unfold DBSComparitor.geOp
    rw [hlt]
    rfl
  · unfold DBSComparitor.leOp
    rw [hgt]
    rfl
  · intro item2 h2
    unfold DBSComparitor.make
    rw [h2]
    simp

/-- Witness for C10's amended statement on the concrete comparator. -/
theorem c10_witness :
    DBSComparitor.eqOp ⟨c10list, 1⟩ "pear" = .error .keyError ∧
    DBSComparitor.neOp ⟨c10list, 1⟩ "pear" = .ok (.error .keyError) := by
  have h := c10_theorem c10list "cherry" "pear" ⟨c10list, 1⟩ (by rfl) (by rfl)
  exact ⟨h.1, h.2.2.2.1⟩

/-- C3: with input `a = 1`, a compute `b` over `[a]` that always raises the
branch-abort signal, and a compute `c` over `[b]`, the run completes
without error; `a` is stored as 1 via the caller-supplied set function, `b`
is stored as `None`, `b` is never propagated to its dependents, and `c` is
never invoked and never set (no event and no context entry mentions it). -/
theorem c3_theorem :
    reactorC3 = .ok rC3 ∧
    _run envC3 cbsStd rC3 32 [] =
      ⟨none, [("a", some 1), ("b", none)],
       [.invoke "a" .INPUT [] [], .setv "a" (some 1),
        .invoke "b" .COMPUTE ["a"] ["a"], .setv "b" none]⟩ ∧
    ((_run envC3 cbsStd rC3 32 []).trace.all
      (fun e => !(eventTouches "c" e))) = true ∧
    ((_run envC3 cbsStd rC3 32 []).state.all (fun kv => kv.1 != "c")) = true :=
  ⟨rfl, rfl, rfl, rfl⟩

/-- C7 counterexample: when an Input cell resolves to no variant (its only
variant is guarded by a false predicate and there is no default), the run
does not raise `AbortExecution`: the `None` placeholder reaches the front
of the queue and the `peek_cell.key` access raises an `AttributeError`,
which is a different kind of error. -/
theorem c7_counterexample :
    reactorC7 = .ok rC7 ∧
    _run envC7 cbsStd rC7 32 [] = ⟨some .attributeError, [], []⟩ ∧
    (some PyErr.attributeError ≠ some PyErr.abortExecution) :=
  ⟨rfl, rfl, by decide⟩

/-- C7 amended: an Input cell that resolves to no variant is enqueued as a
`None` placeholder, and when that placeholder reaches the front of the
queue the run stops immediately with an `AttributeError` (the attribute
access `peek_cell.key` on `None`, outside every `try` block), not with
`AbortExecution`; in the concrete scenario nothing is processed, written
or invoked. -/
theorem c7_theorem :
    (∀ env cbs reactor fuel q processed st tr,
      _runLoop env cbs reactor (fuel + 1) (none :: q) processed st tr =
        ⟨some .attributeError, st, tr⟩) ∧
    _run envC7 cbsStd rC7 32 [] = ⟨some .attributeError, [], []⟩ :=
  ⟨fun _ _ _ _ _ _ _ _ => rfl, rfl⟩

/-- C4: the pre-run consistency check fails with the aggregated
circular-dependency `ReactorError` on `a -> b -> c -> a` (the single error
carries the three rotations of the cycle, one per starting item); it
passes on the chain `a -> b -> c`; it passes on the diamond, computing
exactly `{b, c}` as `a`'s dependents and no dependents for `d`; and on a
graph with two distinct cycles where the cycle path `a->b` is discovered
from two different starting items, the aggregated error lists every
distinct cycle-path string exactly once (deduplicated by path string)
instead of stopping at the first cycle found. -/
theorem c4_theorem :
    reactorC4cyc = .ok rC4cyc ∧
    _check_reactor rC4cyc = .error (.reactorError
      ("Reactor has circular dependencies: " ++ sq ++
       "a->b->c has a cicular dependency with key: " ++ sq ++ "a" ++ sq ++
       ", b->c->a has a cicular dependency with key: " ++ sq ++ "b" ++ sq ++
       ", c->a->b has a cicular dependency with key: " ++ sq ++ "c" ++ sq ++
       sq)) ∧
    reactorC4chain = .ok rC4chain ∧
    (_check_reactor rC4chain).isOk = true ∧
    reactorC4diamond = .ok rC4diamond ∧
    _check_reactor rC4diamond = .ok rC4diamondChecked ∧
    (rLookup rC4diamondChecked "a").map (fun it => it.dependents) =
      some ["b", "c"] ∧
    (rLookup rC4diamondChecked "d").map (fun it => it.dependents) =
      some [] ∧
    reactorC4two = .ok rC4two ∧
    _check_reactor rC4two = .error (.reactorError
      ("Reactor has circular dependencies: " ++ sq ++
       "a->b has a cicular dependency with key: " ++ sq ++ "a" ++ sq ++
       ", b->a has a cicular dependency with key: " ++ sq ++ "b" ++ sq ++
       sq)) :=
  ⟨rfl, rfl, rfl, rfl, rfl, rfl, rfl, rfl, rfl, rfl⟩

/-! ## Lemmas about variant resolution -/

theorem isEmpty_eq_false_of_ne_nil {α : Type} {l : List α} (h : l ≠ []) :
    l.isEmpty = false := by
  cases l with
  | nil => exact absurd rfl h
  | cons a t => rfl

theorem resolveScan_first_match (env : RunEnv) (v : ReactorItemVariant)
    (post : List ReactorItemVariant) (hv : v.predicates ≠ [])
    (hev : evalPredsAll env v.predicates = .ok true) :
    ∀ pre d0,
      (∀ u ∈ pre, u.predicates ≠ [] → evalPredsAll env u.predicates = .ok false) →
      resolveScan env d0 (pre ++ v :: post) = .ok (some v) := by
  intro pre
  induction pre with
  | nil =>
    intro d0 _
    have hne := isEmpty_eq_false_of_ne_nil hv
    simp [resolveScan, hne, hev]
  | cons u pre ih =>
    intro d0 hall
    by_cases hu : u.predicates = []
    · have hne : u.predicates.isEmpty = true := by rw [hu]; rfl
      simp only [List.cons_append, resolveScan, hne, if_true]
      exact ih (some u) (fun w hw => hall w (List.mem_cons_of_mem u hw))
    · have hne := isEmpty_eq_false_of_ne_nil hu
      have hef := hall u (List.mem_cons_self u pre) hu
      simp only [List.cons_append, resolveScan, hne, Bool.false_eq_true,
        if_false, hef]
      exact ih d0 (fun w hw => hall w (List.mem_cons_of_mem u hw))

theorem resolveScan_all_false (env : RunEnv) :
    ∀ vs d0,
      (∀ u ∈ vs, u.predicates ≠ [] ∧ evalPredsAll env u.predicates = .ok false) →
      resolveScan env d0 vs = .ok d0 := by
  intro vs
  induction vs with
  | nil => intro d0 _; rfl
  | cons u vs ih =>
    intro d0 hall
    obtain ⟨hu, hef⟩ := hall u (List.mem_cons_self u vs)
    have hne := isEmpty_eq_false_of_ne_nil hu
    simp only [resolveScan, hne, Bool.false_eq_true, if_false, hef]
    exact ih d0 (fun w hw => (hall w (List.mem_cons_of_mem u hw)))

theorem resolveScan_default (env : RunEnv) (d : ReactorItemVariant)
    (hd : d.predicates = []) :
    ∀ pre post d0,
      (∀ u ∈ pre, u.predicates ≠ [] ∧ evalPredsAll env u.predicates = .ok false) →
      (∀ u ∈ post, u.predicates ≠ [] ∧ evalPredsAll env u.predicates = .ok false) →
      resolveScan env d0 (pre ++ d :: post) = .ok (some d) := by
  intro pre
  induction pre with
  | nil =>
    intro post d0 _ hpost
    have hne : d.predicates.isEmpty = true := by rw [hd]; rfl
    simp only [List.nil_append, resolveScan, hne, if_true]
    exact resolveScan_all_false env post (some d) hpost
  | cons u pre ih =>
    intro post d0 hpre hpost
    obtain ⟨hu, hef⟩ := hpre u (List.mem_cons_self u pre)
    have hne := isEmpty_eq_false_of_ne_nil hu
    simp only [List.cons_append, resolveScan, hne, Bool.false_eq_true,
      if_false, hef]
    exact ih post d0 (fun w hw => hpre w (List.mem_cons_of_mem u hw)) hpost

/-- C2: variant resolution scans in registration order and selects the
first predicated variant whose predicate list (evaluated in order, with the
generator short-circuit of `all`) is all-true; if no predicated variant
matches, the empty-predicate default is selected wherever it sits in the
registration order; with no matching predicated variant and no default,
resolution yields no result rather than an error; concretely, `x = 10`
(default) and `x = 20` (false guard) resolve to 10 in either registration
order. -/
theorem c2_theorem :
    (∀ (env : RunEnv) (item : ReactorItem) (pre : List ReactorItemVariant)
        (v : ReactorItemVariant) (post : List ReactorItemVariant),
      item.variants = pre ++ v :: post →
      v.predicates ≠ [] →
      evalPredsAll env v.predicates = .ok true →
      (∀ u ∈ pre, u.predicates ≠ [] → evalPredsAll env u.predicates = .ok false) →
      _resolve_item env item = .ok (some (mkResolved item v))) ∧
    (∀ (env : RunEnv) (item : ReactorItem) (pre : List ReactorItemVariant)
        (d : ReactorItemVariant) (post : List ReactorItemVariant),
      item.variants = pre ++ d :: post →
      d.predicates = [] →
      (∀ u ∈ pre, u.predicates ≠ [] ∧ evalPredsAll env u.predicates = .ok false) →
      (∀ u ∈ post, u.predicates ≠ [] ∧ evalPredsAll env u.predicates = .ok false) →
      _resolve_item env item = .ok (some (mkResolved item d))) ∧
    (∀ (env : RunEnv) (item : ReactorItem),
      (∀ u ∈ item.variants,
        u.predicates ≠ [] ∧ evalPredsAll env u.predicates = .ok false) →
      _resolve_item env item = .ok none) ∧
    (rLookup rC2a "x").map (fun it => _resolve_item envC2 it) =
      some (.ok (some ⟨.INPUT, "x", "x", 10, [], [], true⟩)) ∧
    (rLookup rC2b "x").map (fun it => _resolve_item envC2 it) =
      some (.ok (some ⟨.INPUT, "x", "x", 10, [], [], true⟩)) := by
  refine ⟨?_, ?_, ?_, rfl, rfl⟩
  · intro env item pre v post hvar hv hev hall
    unfold _resolve_item
    rw [hvar, resolveScan_first_match env v post hv hev pre none hall]
    rfl
  · intro env item pre d post hvar hd hpre hpost
    unfold _resolve_item
    rw [hvar, resolveScan_default env d hd pre post none hpre hpost]
    rfl
  · intro env item hall
    unfold _resolve_item
    rw [resolveScan_all_false env item.variants none hall]
    rfl

/-- Witness for C2 at the guarded-first, default-second registration. -/
theorem c2_witness :
    _resolve_item envC2
        ⟨.INPUT, "x", "x", [⟨20, [], [0], true⟩, ⟨10, [], [], true⟩], []⟩ =
      .ok (some ⟨.INPUT, "x", "x", 10, [], [], true⟩) := by
  have h := c2_theorem.2.1 envC2
    ⟨.INPUT, "x", "x", [⟨20, [], [0], true⟩, ⟨10, [], [], true⟩], []⟩
    [⟨20, [], [0], true⟩] ⟨10, [], [], true⟩ [] rfl rfl
    (fun u hu => by
      simp only [List.mem_singleton] at hu
      subst hu
      exact ⟨by decide, rfl⟩)
    (fun u hu => absurd hu (List.not_mem_nil u))
  exact h

/-! ## Lemmas about the reactor association list and registration -/

theorem rSet_mem (k : String) (v : ReactorItem) :
    ∀ (r : Reactor) (kv : String × ReactorItem),
      kv ∈ rSet r k v → kv = (k, v) ∨ kv ∈ r := by
  intro r
  induction r with
  | nil =>
    intro kv hkv
    simp only [rSet, List.mem_singleton] at hkv
    exact Or.inl hkv
  | cons hd tl ih =>
    intro kv hkv
    by_cases hk : hd.1 = k
    · simp only [rSet, if_pos hk] at hkv
      rcases List.mem_cons.mp hkv with h | h
      · exact Or.inl h
      · exact Or.inr (List.mem_cons_of_mem hd h)
    · simp only [rSet, if_neg hk] at hkv
      rcases List.mem_cons.mp hkv with h | h
      · exact Or.inr (h ▸ List.mem_cons_self hd tl)
      · rcases ih kv h with h2 | h2
        · exact Or.inl h2
        · exact Or.inr (List.mem_cons_of_mem hd h2)

theorem rLookup_mem (r : Reactor) (k : String) (it : ReactorItem)
    (h : rLookup r k = some it) : (k, it) ∈ r := by
  unfold rLookup at h
  rcases hf : r.find? (fun kv => kv.1 == k) with _ | kv
  · rw [hf] at h; cases h
  · rw [hf] at h
    have hmem := List.mem_of_find?_eq_some hf
    have hpred := List.find?_some hf
    have hk : kv.1 = k := by simpa using hpred
    cases h
    have hkv : kv = (k, kv.2) := by
      cases kv
      simp only at hk
      rw [hk]
    rw [← hkv]
    exact hmem

theorem assert_ok_elim (r : Reactor) (name key : String)
    (hkey : maybe_format_key name = .ok key)
    (h : _assert_valid_entry r name true = .ok ()) :
    rLookup r key = none ∨
      ∃ it, rLookup r key = some it ∧
        it.variants.any (fun v => v.predicates.isEmpty) = false := by
  unfold _assert_valid_entry at h
  rw [hkey] at h
  simp only [Bool.not_true, Bool.false_eq_true, if_false] at h
  split at h
  · exact Or.inl (by assumption)
  next it hl =>
    split at h
    · cases h
    next hany =>
      exact Or.inr ⟨it, hl, by simpa using hany⟩

theorem assert_fails_on_existing_default (r : Reactor) (name key : String)
    (it : ReactorItem) (hkey : maybe_format_key name = .ok key)
    (hlook : rLookup r key = some it)
    (hdef : it.variants.any (fun v => v.predicates.isEmpty) = true) :
    _assert_valid_entry r name true = .error .assertionError := by
  unfold _assert_valid_entry
  rw [hkey]
  simp only [Bool.not_true, Bool.false_eq_true, if_false]
  rw [hlook]
  simp [hdef]

theorem add_input_fails_on_existing_default (r : Reactor)
    (name key : String) (it : ReactorItem) (s : Nat) (per : Bool)
    (hkey : maybe_format_key name = .ok key)
    (hlook : rLookup r key = some it)
    (hdef : it.variants.any (fun v => v.predicates.isEmpty) = true) :
    _add_input r name s none per = .error .assertionError := by
  have ha : _assert_valid_entry r name (none : Option (List Nat)).isNone =
      .error .assertionError :=
    assert_fails_on_existing_default r name key it hkey hlook hdef
  unfold _add_input
  rw [ha]

theorem add_co_fails_on_existing_default (r : Reactor) (ty : RType)
    (name key : String) (it : ReactorItem) (f : Nat) (deps : List String)
    (per : Bool)
    (hkey : maybe_format_key name = .ok key)
    (hlook : rLookup r key = some it)
    (hdef : it.variants.any (fun v => v.predicates.isEmpty) = true) :
    _add_compute_or_output r ty name f deps none per =
      .error .assertionError := by
  have ha : _assert_valid_entry r name (none : Option (List Nat)).isNone =
      .error .assertionError :=
    assert_fails_on_existing_default r name key it hkey hlook hdef
  unfold _add_compute_or_output
  rw [ha]

theorem add_input_ok_elim (r : Reactor) (name : String) (s : Nat)
    (preds : Option (List Nat)) (per : Bool) (r2 : Reactor)
    (h : _add_input r name s preds per = .ok r2) :
    ∃ key, maybe_format_key name = .ok key ∧
      (preds.isNone = true → _assert_valid_entry r name true = .ok ()) ∧
      ((rLookup r key = none ∧
          r2 = rSet r key ⟨.INPUT, key, name,
            [⟨s, [], preds.getD [], per⟩], []⟩) ∨
        (∃ old, rLookup r key = some old ∧
          r2 = rSet r key
            { old with
                variants := old.variants ++ [⟨s, [], preds.getD [], per⟩] })) := by
  unfold _add_input at h
  split at h
  · cases h
  next u ha =>
    split at h
    · cases h
    next key hk =>
      refine ⟨key, hk, ?_, ?_⟩
      · intro hnone
        rw [hnone] at ha
        cases u
        exact ha
      · split at h
        next hl =>
          cases h
          exact Or.inl ⟨hl, rfl⟩
        next old hl =>
          split at h
          · cases h
          · cases h
            exact Or.inr ⟨old, hl, rfl⟩

theorem add_co_ok_elim (r : Reactor) (ty : RType) (name : String) (f : Nat)
    (deps : List String) (preds : Option (List Nat)) (per : Bool)
    (r2 : Reactor)
    (h : _add_compute_or_output r ty name f deps preds per = .ok r2) :
    ∃ key dkeys, maybe_format_key name = .ok key ∧
      formatKeys deps = .ok dkeys ∧
      (preds.isNone = true → _assert_valid_entry r name true = .ok ()) ∧
      ((rLookup r key = none ∧
          r2 = rSet r key ⟨ty, key, name,
            [⟨f, dkeys, preds.getD [], per⟩], []⟩) ∨
        (∃ old, rLookup r key = some old ∧
          r2 = rSet r key
            { old with
                variants := old.variants ++ [⟨f, dkeys, preds.getD [], per⟩] })) := by
  unfold _add_compute_or_output at h
  split at h
  · cases h
  next u ha =>
    split at h
    · cases h
    · split at h
      · cases h
      next key hk =>
        split at h
        · cases h
        next dkeys hdk =>
          split at h
          · cases h
          next hcon =>
            refine ⟨key, dkeys, hk, hdk, ?_, ?_⟩
            · intro hnone
              rw [hnone] at ha
              cases u
              exact ha
            · split at h
              next hl =>
                cases h
                exact Or.inl ⟨hl, rfl⟩
              next old hl =>
                split at h
                · cases h
                · cases h
                  exact Or.inr ⟨old, hl, rfl⟩

theorem defaultCount_append (it : ReactorItem) (v : ReactorItemVariant) :
    defaultCount { it with variants := it.variants ++ [v] } =
      defaultCount it + (if v.predicates.isEmpty then 1 else 0) := by
  unfold defaultCount
  simp only [List.filter_append, List.length_append]
  by_cases h : v.predicates.isEmpty <;> simp [h]

theorem defaultCount_zero_of_no_default (it : ReactorItem)
    (h : it.variants.any (fun v => v.predicates.isEmpty) = false) :
    defaultCount it = 0 := by
  unfold defaultCount
  rw [List.length_eq_zero, List.filter_eq_nil_iff]
  intro a ha
  rw [List.any_eq_false] at h
  exact h a ha

theorem defaultCount_single (ty : RType) (key name : String)
    (v : ReactorItemVariant) :
    defaultCount ⟨ty, key, name, [v], []⟩ ≤ 1 := by
  unfold defaultCount
  by_cases h : v.predicates.isEmpty <;> simp [List.filter, h]

theorem add_input_preserves (r : Reactor) (name : String) (s : Nat)
    (preds : Option (List Nat)) (per : Bool) (r2 : Reactor)
    (hpreds : preds ≠ some []) (hinv : atMostOneDefault r)
    (h : _add_input r name s preds per = .ok r2) :
    atMostOneDefault r2 := by
  obtain ⟨key, hk, hassert, hshape⟩ := add_input_ok_elim r name s preds per r2 h
  intro kv hkv
  rcases hshape with ⟨hl, hr2⟩ | ⟨old, hl, hr2⟩
  · rw [hr2] at hkv
    rcases rSet_mem key _ r kv hkv with heq | hmem
    · rw [heq]
      exact defaultCount_single _ _ _ _
    · exact hinv kv hmem
  · rw [hr2] at hkv
    rcases rSet_mem key _ r kv hkv with heq | hmem
    · rw [heq]
      show defaultCount { old with
        variants := old.variants ++ [⟨s, [], preds.getD [], per⟩] } ≤ 1
      rw [defaultCount_append]
      cases preds with
      | none =>
        have ha := hassert rfl
        rcases assert_ok_elim r name key hk ha with hnone | ⟨it, hl2, hany⟩
        · rw [hl] at hnone; cases hnone
        · rw [hl] at hl2
          cases hl2
          rw [defaultCount_zero_of_no_default old hany]
          simp [Option.getD]
      | some ps =>
        have hne : ps ≠ [] := by
          intro hx
          exact hpreds (by rw [hx])
        have hgd : (some ps).getD ([] : List Nat) = ps := rfl
        rw [hgd, isEmpty_eq_false_of_ne_nil hne]
        simp only [Bool.false_eq_true, if_false]
        have := hinv (key, old) (rLookup_mem r key old hl)
        simpa using this
    · exact hinv kv hmem

theorem add_co_preserves (r : Reactor) (ty : RType) (name : String) (f : Nat)
    (deps : List String) (preds : Option (List Nat)) (per : Bool)
    (r2 : Reactor) (hpreds : preds ≠ some []) (hinv : atMostOneDefault r)
    (h : _add_compute_or_output r ty name f deps preds per = .ok r2) :
    atMostOneDefault r2 := by
  obtain ⟨key, dkeys, hk, _, hassert, hshape⟩ :=
    add_co_ok_elim r ty name f deps preds per r2 h
  intro kv hkv
  rcases hshape with ⟨hl, hr2⟩ | ⟨old, hl, hr2⟩
  · rw [hr2] at hkv
    rcases rSet_mem key _ r kv hkv with heq | hmem
    · rw [heq]
      exact defaultCount_single _ _ _ _
    · exact hinv kv hmem
  · rw [hr2] at hkv
    rcases rSet_mem key _ r kv hkv with heq | hmem
    · rw [heq]
      show defaultCount { old with
        variants := old.variants ++ [⟨f, dkeys, preds.getD [], per⟩] } ≤ 1
      rw [defaultCount_append]
      cases preds with
      | none =>
        have ha := hassert rfl
        rcases assert_ok_elim r name key hk ha with hnone | ⟨it, hl2, hany⟩
        · rw [hl] at hnone; cases hnone
        · rw [hl] at hl2
          cases hl2
          rw [defaultCount_zero_of_no_default old hany]
          simp [Option.getD]
      | some ps =>
        have hne : ps ≠ [] := by
          intro hx
          exact hpreds (by rw [hx])
        have hgd : (some ps).getD ([] : List Nat) = ps := rfl
        rw [hgd, isEmpty_eq_false_of_ne_nil hne]
        simp only [Bool.false_eq_true, if_false]
        have := hinv (key, old) (rLookup_mem r key old hl)
        simpa using this
    · exact hinv kv hmem

theorem applyOp_preserves (r : Reactor) (op : RegOp) (r2 : Reactor)
    (hpreds : op.preds ≠ some []) (hinv : atMostOneDefault r)
    (h : applyOp r op = .ok r2) : atMostOneDefault r2 := by
  cases op with
  | inp n s p per => exact add_input_preserves r n s p per r2 hpreds hinv h
  | comp n f d p per =>
    exact add_co_preserves r .COMPUTE n f d p per r2 hpreds hinv h
  | outp n f d p per =>
    exact add_co_preserves r .OUTPUT n f d p per r2 hpreds hinv h

theorem applyOps_preserves :
    ∀ (ops : List RegOp) (r r2 : Reactor),
      (∀ op ∈ ops, op.preds ≠ some []) → atMostOneDefault r →
      applyOps r ops = .ok r2 → atMostOneDefault r2 := by
  intro ops
  induction ops with
  | nil =>
    intro r r2 _ hinv h
    cases h
    exact hinv
  | cons op ops ih =>
    intro r r2 hall hinv h
    unfold applyOps at h
    split at h
    · cases h
    next rmid hop =>
      exact ih rmid r2 (fun w hw => hall w (List.mem_cons_of_mem op hw))
        (applyOp_preserves r op rmid (hall op (List.mem_cons_self op ops)) hinv
          hop)
        h

/-- C5 counterexample: two variants with an explicitly passed *empty*
predicate list both register successfully for the same cell name — the
registration-time check tests `predicates is None`, not emptiness — so the
second registration does not fail and the resulting item holds two
empty-predicate (default) variants. -/
theorem c5_counterexample :
    _add_input [] "x" 1 (some []) true =
      .ok [("x", ⟨.INPUT, "x", "x", [⟨1, [], [], true⟩], []⟩)] ∧
    _add_input [("x", ⟨.INPUT, "x", "x", [⟨1, [], [], true⟩], []⟩)]
        "x" 2 (some []) true =
      .ok [("x", ⟨.INPUT, "x", "x",
        [⟨1, [], [], true⟩, ⟨2, [], [], true⟩], []⟩)] ∧
    defaultCount ⟨.INPUT, "x", "x",
      [⟨1, [], [], true⟩, ⟨2, [], [], true⟩], []⟩ = 2 :=
  ⟨rfl, rfl, rfl⟩

/-- C5 amended: for registrations whose default variants are declared by
omitting the predicates argument (`None`) — an explicitly passed empty
list bypasses the check — a second unconditional registration fails with
`AssertionError` whenever the cell already holds an empty-predicate
variant, in either registration order and for inputs, computes and
outputs alike; consequently every sequence of successful registration
calls that never passes an explicit empty predicate list preserves the
at-most-one-default invariant; one default plus predicated variants still
registers successfully. -/
theorem c5_theorem :
    (∀ (ops : List RegOp) (r r2 : Reactor),
      (∀ op ∈ ops, op.preds ≠ some []) → atMostOneDefault r →
      applyOps r ops = .ok r2 → atMostOneDefault r2) ∧
    (∀ (r : Reactor) (name key : String) (it : ReactorItem) (s : Nat)
        (per : Bool),
      maybe_format_key name = .ok key → rLookup r key = some it →
      it.variants.any (fun v => v.predicates.isEmpty) = true →
      _add_input r name s none per = .error .assertionError) ∧
    (∀ (r : Reactor) (ty : RType) (name key : String) (it : ReactorItem)
        (f : Nat) (deps : List String) (per : Bool),
      maybe_format_key name = .ok key → rLookup r key = some it →
      it.variants.any (fun v => v.predicates.isEmpty) = true →
      _add_compute_or_output r ty name f deps none per =
        .error .assertionError) ∧
    (applyOps [] [.inp "y" 1 none true, .inp "y" 2 (some [0]) true,
      .inp "y" 3 (some [1]) true]).isOk = true := by
  refine ⟨applyOps_preserves, ?_, ?_, rfl⟩
  · intro r name key it s per hk hl hd
    exact add_input_fails_on_existing_default r name key it s per hk hl hd
  · intro r ty name key it f deps per hk hl hd
    exact add_co_fails_on_existing_default r ty name key it f deps per hk hl hd

/-- Witness for C5's amended statement: a default-then-predicated sequence
keeps at most one default, and a second `None`-predicates input for a cell
that already has a default is rejected. -/
theorem c5_witness :
    atMostOneDefault
      [("x", ⟨.INPUT, "x", "x",
        [⟨1, [], [], true⟩, ⟨2, [], [0], true⟩], []⟩)] ∧
    _add_input [("x", ⟨.INPUT, "x", "x", [⟨1, [], [], true⟩], []⟩)]
      "x" 2 none true = .error .assertionError := by
  constructor
  · exact c5_theorem.1 [.inp "x" 1 none true, .inp "x" 2 (some [0]) true]
      [] _ (by decide) (fun kv hkv => absurd hkv (List.not_mem_nil kv)) rfl
  · exact c5_theorem.2.1 _ "x" "x" ⟨.INPUT, "x", "x", [⟨1, [], [], true⟩], []⟩
      2 true rfl rfl rfl

/-- C6 counterexample: registering compute `b-b` with the raw dependency
`b-b` does *not* fail — the self-dependency guard compares the canonical
key `b_b` against the raw dependency list `[b-b]` — even though the
stored dependency list is canonicalized to `[b_b]`, which equals the
cell's own key. -/
theorem c6_counterexample :
    maybe_format_key "b-b" = .ok "b_b" ∧
    _add_compute_or_output [] .COMPUTE "b-b" 0 ["b-b"] none true =
      .ok [("b_b", ⟨.COMPUTE, "b_b", "b-b", [⟨0, ["b_b"], [], true⟩], []⟩)] :=
  ⟨rfl, rfl⟩

/-- C6 amended: dependency names are canonicalized for storage, but the
registration-time self-dependency check compares the cell's canonical key
against the *raw* dependency list: whenever registration reaches the
check, it fails with `KeyExists` exactly when the canonical key appears
verbatim among the raw dependency names — so `b-b` with dependency `b_b`
fails, while `b-b` with dependency `b-b` registers successfully (its
stored dependency list canonicalizing to the cell's own key). -/
theorem c6_theorem :
    (∀ (r : Reactor) (ty : RType) (name : String) (f : Nat)
        (deps : List String) (p : Option (List Nat)) (per : Bool)
        (key : String) (dkeys : List String),
      _assert_valid_entry r name p.isNone = .ok () →
      ty ≠ .INPUT →
      maybe_format_key name = .ok key →
      formatKeys deps = .ok dkeys →
      (_add_compute_or_output r ty name f deps p per = .error .keyExists ↔
        deps.contains key = true)) ∧
    _add_compute_or_output [] .COMPUTE "b-b" 0 ["b_b"] none true =
      .error .keyExists ∧
    (_add_compute_or_output [] .COMPUTE "b-b" 0 ["b-b"] none true).isOk =
      true ∧
    formatKeys ["b-b"] = .ok ["b_b"] := by
  refine ⟨?_, rfl, rfl, rfl⟩
  intro r ty name f deps p per key dkeys hassert hty hk hdk
  unfold _add_compute_or_output
  constructor
  · intro h
    split at h
    next e heq => rw [hassert] at heq; cases heq
    next u heq =>
      split at h
      next hty2 => exact absurd hty2 hty
      next =>
        split at h
        next e heq => rw [hk] at heq; cases heq
        next key2 heq =>
          rw [hk] at heq
          cases heq
          split at h
          next e heq2 => rw [hdk] at heq2; cases heq2
          next dkeys2 heq2 =>
            split at h
            next hcc => exact hcc
            next hcc =>
              split at h
              · cases h
              next old hl =>
                split at h
                · simp at h
                · cases h
  · intro hc
    split
    next e heq => rw [hassert] at heq; cases heq
    next u heq =>
      split
      next hty2 => exact absurd hty2 hty
      next =>
        split
        next e heq => rw [hk] at heq; cases heq
        next key2 heq =>
          rw [hk] at heq
          cases heq
          split
          next e heq2 => rw [hdk] at heq2; cases heq2
          next dkeys2 heq2 =>
            rw [if_pos hc]

/-- Witness for C6's amended statement at the canonically spelled
dependency. -/
theorem c6_witness :
    _add_compute_or_output [] .COMPUTE "b-b" 0 ["b_b"] none true =
      .error .keyExists := by
  exact (c6_theorem.1 [] .COMPUTE "b-b" 0 ["b_b"] none true "b_b" ["b_b"]
    rfl (by decide) rfl rfl).mpr rfl


/-! ## Lemmas for the scheduling invariant: the dependents calculation -/

theorem rLookup_rSet_self (r : Reactor) (k : String) (v : ReactorItem) :
    rLookup (rSet r k v) k = some v := by
  induction r with
  | nil => simp [rSet, rLookup, List.find?]
  | cons hd tl ih =>
    by_cases hk : hd.1 = k
    · simp [rSet, if_pos hk, rLookup, List.find?]
    · simp only [rSet, if_neg hk]
      unfold rLookup at *
      simp only [List.find?]
      have : (hd.1 == k) = false := by
        simp [hk]
      rw [this]
      exact ih

theorem rLookup_rSet_ne (r : Reactor) (k k2 : String) (v : ReactorItem)
    (h : k2 ≠ k) : rLookup (rSet r k v) k2 = rLookup r k2 := by
  induction r with
  | nil =>
    unfold rLookup rSet
    simp only [List.find?]
    have : (k == k2) = false := by
      simp
      intro he
      exact h he.symm
    rw [this]
  | cons hd tl ih =>
    by_cases hk : hd.1 = k
    · simp only [rSet, if_pos hk]
      unfold rLookup
      simp only [List.find?]
      have h1 : (k == k2) = false := by
        simp
        intro he
        exact h he.symm
      have h2 : (hd.1 == k2) = false := by
        rw [hk]
        exact h1
      rw [h1, h2]
    · simp only [rSet, if_neg hk]
      unfold rLookup at *
      simp only [List.find?]
      cases hb : (hd.1 == k2) with
      | true => rfl
      | false => exact ih

theorem mem_isSome (r : Reactor) (k : String) (it : ReactorItem)
    (h : (k, it) ∈ r) : (rLookup r k).isSome = true := by
  induction r with
  | nil => cases h
  | cons hd tl ih =>
    rcases List.mem_cons.mp h with he | hm
    · unfold rLookup
      simp only [List.find?]
      rw [← he]
      simp
    · unfold rLookup
      simp only [List.find?]
      cases hb : (hd.1 == k) with
      | true => rfl
      | false => exact ih hm

theorem addKey_mem (s : List String) (k x : String) (h : x ∈ s) :
    x ∈ addKey s k := by
  unfold addKey
  by_cases hc : s.contains k
  · rw [if_pos hc]; exact h
  · rw [if_neg hc]; exact List.mem_append_left _ h

theorem addKey_self (s : List String) (k : String) : k ∈ addKey s k := by
  unfold addKey
  by_cases hc : s.contains k
  · rw [if_pos hc]
    exact List.mem_of_elem_eq_true hc
  · rw [if_neg hc]
    exact List.mem_append_right _ (List.mem_singleton.mpr rfl)

theorem depAddStep_eq_some (acc : Reactor × List String) (d key : String)
    (it : ReactorItem) (hl : rLookup acc.1 d = some it) :
    depAddStep acc d key =
      (rSet acc.1 d { it with dependents := addKey it.dependents key },
       acc.2) := by
  unfold depAddStep
  rw [hl]

theorem depAddStep_eq_none (acc : Reactor × List String) (d key : String)
    (hl : rLookup acc.1 d = none) :
    depAddStep acc d key =
      (acc.1, acc.2 ++ ["formatted_key(" ++ d ++ ") not in reactor"]) := by
  unfold depAddStep
  rw [hl]

theorem depAddStep_isSome (acc : Reactor × List String) (d key k : String)
    (h : (rLookup acc.1 k).isSome = true) :
    (rLookup (depAddStep acc d key).1 k).isSome = true := by
  rcases hl : rLookup acc.1 d with _ | it
  · rw [depAddStep_eq_none acc d key hl]
    exact h
  · rw [depAddStep_eq_some acc d key it hl]
    by_cases hk : k = d
    · subst hk
      simp [rLookup_rSet_self]
    · rw [rLookup_rSet_ne acc.1 d k _ hk]
      exact h

theorem depAddStep_hasDep (acc : Reactor × List String) (d key k : String)
    (h : hasDep acc.1 k) : hasDep (depAddStep acc d key).1 k := by
  obtain ⟨it, hl, hm⟩ := h
  rcases hl2 : rLookup acc.1 d with _ | it2
  · rw [depAddStep_eq_none acc d key hl2]
    exact ⟨it, hl, hm⟩
  · rw [depAddStep_eq_some acc d key it2 hl2]
    by_cases hk : k = d
    · subst hk
      rw [hl] at hl2
      cases hl2
      exact ⟨{ it with dependents := addKey it.dependents key },
        rLookup_rSet_self _ _ _, addKey_mem _ _ _ hm⟩
    · rw [show hasDep (rSet acc.1 d
        { it2 with dependents := addKey it2.dependents key }) k =
        ∃ it3, rLookup (rSet acc.1 d
          { it2 with dependents := addKey it2.dependents key }) k = some it3 ∧
          k ∈ it3.dependents from rfl]
      rw [rLookup_rSet_ne acc.1 d k _ hk]
      exact ⟨it, hl, hm⟩

theorem depAddStep_establish (acc : Reactor × List String) (k : String)
    (h : (rLookup acc.1 k).isSome = true) :
    hasDep (depAddStep acc k k).1 k := by
  rcases hl : rLookup acc.1 k with _ | it
  · rw [hl] at h; cases h
  · rw [depAddStep_eq_some acc k k it hl]
    exact ⟨{ it with dependents := addKey it.dependents k },
      rLookup_rSet_self _ _ _, addKey_self _ _⟩

theorem calcDeps_isSome (key k : String) :
    ∀ (ds : List String) (acc : Reactor × List String),
      (rLookup acc.1 k).isSome = true →
      (rLookup (calcDeps key ds acc).1 k).isSome = true := by
  intro ds
  induction ds with
  | nil => intro acc h; exact h
  | cons d rest ih =>
    intro acc h
    exact ih _ (depAddStep_isSome acc d key k h)

theorem calcDeps_hasDep (key k : String) :
    ∀ (ds : List String) (acc : Reactor × List String),
      hasDep acc.1 k → hasDep (calcDeps key ds acc).1 k := by
  intro ds
  induction ds with
  | nil => intro acc h; exact h
  | cons d rest ih =>
    intro acc h
    exact ih _ (depAddStep_hasDep acc d key k h)

theorem calcDeps_establish (k : String) :
    ∀ (ds : List String) (acc : Reactor × List String),
      k ∈ ds → (rLookup acc.1 k).isSome = true →
      hasDep (calcDeps k ds acc).1 k := by
  intro ds
  induction ds with
  | nil => intro acc h; cases h
  | cons d rest ih =>
    intro acc hmem hsome
    rcases List.mem_cons.mp hmem with he | hm
    · subst he
      exact calcDeps_hasDep k k rest _ (depAddStep_establish acc k hsome)
    · exact ih _ hm (depAddStep_isSome acc d k k hsome)

theorem calcVariants_isSome (key k : String) :
    ∀ (vs : List ReactorItemVariant) (acc : Reactor × List String),
      (rLookup acc.1 k).isSome = true →
      (rLookup (calcVariants key vs acc).1 k).isSome = true := by
  intro vs
  induction vs with
  | nil => intro acc h; exact h
  | cons v rest ih =>
    intro acc h
    exact ih _ (calcDeps_isSome key k v.dependencies acc h)

theorem calcVariants_hasDep (key k : String) :
    ∀ (vs : List ReactorItemVariant) (acc : Reactor × List String),
      hasDep acc.1 k → hasDep (calcVariants key vs acc).1 k := by
  intro vs
  induction vs with
  | nil => intro acc h; exact h
  | cons v rest ih =>
    intro acc h
    exact ih _ (calcDeps_hasDep key k v.dependencies acc h)

theorem calcVariants_establish (k : String) (v : ReactorItemVariant) :
    ∀ (vs : List ReactorItemVariant) (acc : Reactor × List String),
      v ∈ vs → k ∈ v.dependencies → (rLookup acc.1 k).isSome = true →
      hasDep (calcVariants k vs acc).1 k := by
  intro vs
  induction vs with
  | nil => intro acc h; cases h
  | cons u rest ih =>
    intro acc hmem hdep hsome
    rcases List.mem_cons.mp hmem with he | hm
    · subst he
      exact calcVariants_hasDep k k rest _
        (calcDeps_establish k v.dependencies acc hdep hsome)
    · exact ih _ hm hdep (calcDeps_isSome k k u.dependencies acc hsome)

theorem calcAll_isSome (k : String) :
    ∀ (l : List (String × ReactorItem)) (acc : Reactor × List String),
      (rLookup acc.1 k).isSome = true →
      (rLookup (calcAll l acc).1 k).isSome = true := by
  intro l
  induction l with
  | nil => intro acc h; exact h
  | cons kv rest ih =>
    intro acc h
    exact ih _ (calcVariants_isSome kv.1 k kv.2.variants acc h)

theorem calcAll_hasDep (k : String) :
    ∀ (l : List (String × ReactorItem)) (acc : Reactor × List String),
      hasDep acc.1 k → hasDep (calcAll l acc).1 k := by
  intro l
  induction l with
  | nil => intro acc h; exact h
  | cons kv rest ih =>
    intro acc h
    exact ih _ (calcVariants_hasDep kv.1 k kv.2.variants acc h)

theorem calcAll_establish (k : String) (it0 : ReactorItem)
    (v : ReactorItemVariant) :
    ∀ (l : List (String × ReactorItem)) (acc : Reactor × List String),
      (k, it0) ∈ l → v ∈ it0.variants → k ∈ v.dependencies →
      (rLookup acc.1 k).isSome = true →
      hasDep (calcAll l acc).1 k := by
  intro l
  induction l with
  | nil => intro acc h; cases h
  | cons kv rest ih =>
    intro acc hmem hv hdep hsome
    rcases List.mem_cons.mp hmem with he | hm
    · rw [← he]
      exact calcAll_hasDep k rest _
        (calcVariants_establish k v it0.variants acc hv hdep hsome)
    · exact ih _ hm hv hdep (calcVariants_isSome kv.1 k kv.2.variants acc hsome)

theorem calculate_ok_result (r r2 : Reactor)
    (h : _calculate_dependents r = .ok r2) : r2 = (calcAll r (r, [])).1 := by
  unfold _calculate_dependents at h
  split at h
  next r3 errors heq =>
    split at h
    · cases h
      rw [heq]
    · cases h

theorem calculate_hasDep (r r2 : Reactor) (k : String) (it0 : ReactorItem)
    (v : ReactorItemVariant)
    (h : _calculate_dependents r = .ok r2)
    (hmem : (k, it0) ∈ r) (hv : v ∈ it0.variants) (hdep : k ∈ v.dependencies) :
    hasDep r2 k := by
  rw [calculate_ok_result r r2 h]
  exact calcAll_establish k it0 v r (r, []) hmem hv hdep
    (mem_isSome r k it0 hmem)

theorem depAddStep_origin (r : Reactor) (acc : Reactor × List String)
    (d key : String) (h : originOf r acc.1) :
    originOf r (depAddStep acc d key).1 := by
  rcases hl : rLookup acc.1 d with _ | it
  · rw [depAddStep_eq_none acc d key hl]
    exact h
  · rw [depAddStep_eq_some acc d key it hl]
    intro kv hkv
    rcases rSet_mem d _ acc.1 kv hkv with he | hm
    · subst he
      obtain ⟨it0, hmem, hvar, hkey⟩ := h (d, it) (rLookup_mem acc.1 d it hl)
      exact ⟨it0, hmem, hvar, hkey⟩
    · exact h kv hm

theorem calcDeps_origin (r : Reactor) (key : String) :
    ∀ (ds : List String) (acc : Reactor × List String),
      originOf r acc.1 → originOf r (calcDeps key ds acc).1 := by
  intro ds
  induction ds with
  | nil => intro acc h; exact h
  | cons d rest ih =>
    intro acc h
    exact ih _ (depAddStep_origin r acc d key h)

theorem calcVariants_origin (r : Reactor) (key : String) :
    ∀ (vs : List ReactorItemVariant) (acc : Reactor × List String),
      originOf r acc.1 → originOf r (calcVariants key vs acc).1 := by
  intro vs
  induction vs with
  | nil => intro acc h; exact h
  | cons v rest ih =>
    intro acc h
    exact ih _ (calcDeps_origin r key v.dependencies acc h)

theorem calcAll_origin (r : Reactor) :
    ∀ (l : List (String × ReactorItem)) (acc : Reactor × List String),
      originOf r acc.1 → originOf r (calcAll l acc).1 := by
  intro l
  induction l with
  | nil => intro acc h; exact h
  | cons kv rest ih =>
    intro acc h
    exact ih _ (calcVariants_origin r kv.1 kv.2.variants acc h)

theorem calculate_origin (r r2 : Reactor)
    (h : _calculate_dependents r = .ok r2) : originOf r r2 := by
  rw [calculate_ok_result r r2 h]
  exact calcAll_origin r r (r, []) (fun kv hkv => ⟨kv.2, hkv, rfl, rfl⟩)

theorem wellKeyed_transfer (r r2 : Reactor) (hwk : wellKeyedB r = true)
    (ho : originOf r r2) : ∀ kv ∈ r2, kv.2.key = kv.1 := by
  intro kv hkv
  obtain ⟨it0, hmem, _, hkey⟩ := ho kv hkv
  have := List.all_eq_true.mp hwk (kv.1, it0) hmem
  simp only [beq_iff_eq] at this
  rw [← hkey]
  exact this

theorem cyclePathLoop_ne (dependents : List String) :
    ∀ (path : List String) (acc : List String × List String),
      acc.1 ≠ [] → (cyclePathLoop dependents path acc).1 ≠ [] := by
  intro path
  induction path with
  | nil => intro acc h; exact h
  | cons key rest ih =>
    intro acc h
    obtain ⟨e, pe⟩ := acc
    simp only [cyclePathLoop]
    split
    · split
      · exact ih (e, pe) h
      · exact ih _ (by simp)
    · exact ih (e, pe) h

theorem cyclePathLoop_good (dependents : List String) :
    ∀ (path : List String) (acc : List String × List String),
      GoodAcc acc → GoodAcc (cyclePathLoop dependents path acc) := by
  intro path
  induction path with
  | nil => intro acc h; exact h
  | cons key rest ih =>
    intro acc h
    obtain ⟨e, pe⟩ := acc
    simp only [cyclePathLoop]
    split
    · split
      · exact ih (e, pe) h
      · refine ih _ ?_
        intro _
        simp
    · exact ih (e, pe) h

theorem cyclePathLoop_kick (dependents : List String) (k : String)
    (rest : List String) (acc : List String × List String)
    (hc : dependents.contains k = true) (hg : GoodAcc acc) :
    (cyclePathLoop dependents (k :: rest) acc).1 ≠ [] := by
  obtain ⟨e, pe⟩ := acc
  simp only [cyclePathLoop]
  rw [hc]
  simp only [if_true]
  split
  next hstr =>
    have hpe : pe ≠ [] := by
      intro hx
      rw [hx] at hstr
      cases hstr
    exact cyclePathLoop_ne dependents rest (e, pe) (hg hpe)
  next hstr =>
    exact cyclePathLoop_ne dependents rest _ (by simp)

theorem cycleDepsLoop_pres
    (recurse : List String → List String → List String × List String →
      Except PyErr (List String × List String))
    (reactor : Reactor) (path : List String)
    (hrec : ∀ p d a a2, recurse p d a = .ok a2 →
      (a.1 ≠ [] → a2.1 ≠ []) ∧ (GoodAcc a → GoodAcc a2)) :
    ∀ (ds : List String) (acc acc2 : List String × List String),
      cycleDepsLoop recurse reactor path ds acc = .ok acc2 →
      (acc.1 ≠ [] → acc2.1 ≠ []) ∧ (GoodAcc acc → GoodAcc acc2) := by
  intro ds
  induction ds with
  | nil =>
    intro acc acc2 h
    cases h
    exact ⟨id, id⟩
  | cons key rest ih =>
    intro acc acc2 h
    unfold cycleDepsLoop at h
    split at h
    · exact ih acc acc2 h
    · split at h
      · cases h
      next it hl =>
        split at h
        · exact ih acc acc2 h
        · split at h
          · cases h
          next accm hrecm =>
            obtain ⟨hne1, hg1⟩ := hrec _ _ _ _ hrecm
            obtain ⟨hne2, hg2⟩ := ih accm acc2 h
            exact ⟨fun hx => hne2 (hne1 hx), fun hx => hg2 (hg1 hx)⟩

theorem cycleCheckFrom_pres (reactor : Reactor) :
    ∀ (fuel : Nat) (path dependents : List String)
      (acc acc2 : List String × List String),
      cycleCheckFrom reactor fuel path dependents acc = .ok acc2 →
      (acc.1 ≠ [] → acc2.1 ≠ []) ∧ (GoodAcc acc → GoodAcc acc2) := by
  intro fuel
  induction fuel with
  | zero => intro path dep acc acc2 h; cases h
  | succ fuel ih =>
    intro path dep acc acc2 h
    unfold cycleCheckFrom at h
    obtain ⟨hne, hg⟩ := cycleDepsLoop_pres _ reactor path
      (fun p d a a2 hx => ih p d a a2 hx) dep _ acc2 h
    constructor
    · intro hx
      exact hne (cyclePathLoop_ne dep path acc hx)
    · intro hx
      exact hg (cyclePathLoop_good dep path acc hx)

theorem cycleCheckAll_pres (reactor : Reactor) :
    ∀ (l : List (String × ReactorItem))
      (acc acc2 : List String × List String),
      cycleCheckAll reactor l acc = .ok acc2 →
      (acc.1 ≠ [] → acc2.1 ≠ []) ∧ (GoodAcc acc → GoodAcc acc2) := by
  intro l
  induction l with
  | nil =>
    intro acc acc2 h
    cases h
    exact ⟨id, id⟩
  | cons kv rest ih =>
    intro acc acc2 h
    unfold cycleCheckAll at h
    split at h
    · cases h
    next accm hm =>
      obtain ⟨hne1, hg1⟩ := cycleCheckFrom_pres reactor _ _ _ acc accm hm
      obtain ⟨hne2, hg2⟩ := ih accm acc2 h
      exact ⟨fun hx => hne2 (hne1 hx), fun hx => hg2 (hg1 hx)⟩

theorem cycleCheckAll_append (reactor : Reactor) :
    ∀ (xs ys : List (String × ReactorItem))
      (acc acc2 : List String × List String),
      cycleCheckAll reactor (xs ++ ys) acc = .ok acc2 →
      ∃ accm, cycleCheckAll reactor xs acc = .ok accm ∧
        cycleCheckAll reactor ys accm = .ok acc2 := by
  intro xs
  induction xs with
  | nil =>
    intro ys acc acc2 h
    exact ⟨acc, rfl, h⟩
  | cons kv rest ih =>
    intro ys acc acc2 h
    rw [List.cons_append] at h
    unfold cycleCheckAll at h
    split at h
    · cases h
    next accm hm =>
      obtain ⟨accn, h1, h2⟩ := ih ys accm acc2 h
      refine ⟨accn, ?_, h2⟩
      unfold cycleCheckAll
      rw [hm]
      exact h1

theorem check_circ_fails_on_self (r2 : Reactor) (k : String)
    (it : ReactorItem) (hmem : (k, it) ∈ r2) (hdep : k ∈ it.dependents) :
    _check_circular_dependencies r2 ≠ .ok () := by
  intro h
  unfold _check_circular_dependencies at h
  split at h
  · cases h
  next acc hall =>
    split at h
    next hemp =>
      obtain ⟨xs, ys, hsplit⟩ := List.append_of_mem hmem
      rw [hsplit] at hall
      obtain ⟨accm, hxs, hmid⟩ :=
        cycleCheckAll_append _ xs ((k, it) :: ys) ([], []) acc hall
      unfold cycleCheckAll at hmid
      split at hmid
      · cases hmid
      next accn hfrom =>
        have hgm : GoodAcc accm :=
          (cycleCheckAll_pres _ xs ([], []) accm hxs).2 (fun hx => absurd rfl hx)
        have hcont : it.dependents.contains k = true := by
          exact List.elem_eq_true_of_mem hdep
        have hkick : (cyclePathLoop it.dependents [k] accm).1 ≠ [] :=
          cyclePathLoop_kick it.dependents k [] accm hcont hgm
        unfold cycleCheckFrom at hfrom
        have hne : accn.1 ≠ [] :=
          (cycleDepsLoop_pres _ _ [k]
            (fun p d a a2 hx =>
              cycleCheckFrom_pres _ _ p d a a2 hx)
            it.dependents _ accn hfrom).1 hkick
        have hne2 : acc.1 ≠ [] :=
          (cycleCheckAll_pres _ ys accn acc hmid).1 hne
        exact absurd (List.isEmpty_iff.mp hemp) hne2
    · cases h

theorem check_reactor_ok_elim (r r2 : Reactor)
    (h : _check_reactor r = .ok r2) :
    _calculate_dependents r = .ok r2 ∧
      _check_circular_dependencies r2 = .ok () := by
  unfold _check_reactor at h
  split at h
  · cases h
  next rc hcalc =>
    split at h
    next u hcirc =>
      cases h
      cases u
      exact ⟨hcalc, hcirc⟩
    · cases h
    · cases h

theorem check_noSelfDep (r r2 : Reactor) (h : _check_reactor r = .ok r2)
    (hwk : wellKeyedB r = true) :
    (∀ kv ∈ r2, kv.2.key = kv.1) ∧
    (∀ kv ∈ r2, ∀ v ∈ kv.2.variants, ¬ kv.1 ∈ v.dependencies) := by
  obtain ⟨hcalc, hcirc⟩ := check_reactor_ok_elim r r2 h
  have horig := calculate_origin r r2 hcalc
  refine ⟨wellKeyed_transfer r r2 hwk horig, ?_⟩
  intro kv hkv v hv hdep
  obtain ⟨it0, hmem0, hvar, _⟩ := horig kv hkv
  have hv0 : v ∈ it0.variants := by rw [hvar]; exact hv
  have hd : hasDep r2 kv.1 :=
    calculate_hasDep r r2 kv.1 it0 v hcalc hmem0 hv0 hdep
  obtain ⟨it2, hl2, hdep2⟩ := hd
  exact check_circ_fails_on_self r2 kv.1 it2
    (rLookup_mem r2 kv.1 it2 hl2) hdep2 hcirc

theorem resolveScan_mem (env : RunEnv) :
    ∀ (vs : List ReactorItemVariant) (d0 : Option ReactorItemVariant)
      (v : ReactorItemVariant),
      resolveScan env d0 vs = .ok (some v) → v ∈ vs ∨ d0 = some v := by
  intro vs
  induction vs with
  | nil =>
    intro d0 v h
    cases h
    exact Or.inr rfl
  | cons u rest ih =>
    intro d0 v h
    unfold resolveScan at h
    split at h
    · rcases ih (some u) v h with hm | he
      · exact Or.inl (List.mem_cons_of_mem u hm)
      · cases he
        exact Or.inl (List.mem_cons_self u rest)
    · split at h
      · cases h
      · cases h
        exact Or.inl (List.mem_cons_self u rest)
      · rcases ih d0 v h with hm | he
        · exact Or.inl (List.mem_cons_of_mem u hm)
        · exact Or.inr he

theorem resolve_ok_some (env : RunEnv) (it : ReactorItem) (c : ResolvedItem)
    (h : _resolve_item env it = .ok (some c)) :
    c.key = it.key ∧ ∃ v ∈ it.variants, c.dependencies = v.dependencies := by
  unfold _resolve_item at h
  split at h
  · cases h
  next sel hscan =>
    cases sel with
    | none => cases h
    | some v =>
      cases h
      rcases resolveScan_mem env it.variants none v hscan with hm | he
      · exact ⟨rfl, v, hm, rfl⟩
      · cases he

theorem resolve_elemOK (r2 : Reactor)
    (hns : ∀ kv ∈ r2, ∀ v ∈ kv.2.variants, ¬ kv.1 ∈ v.dependencies)
    (hwk : ∀ kv ∈ r2, kv.2.key = kv.1)
    (k : String) (it : ReactorItem) (hmem : (k, it) ∈ r2) (env : RunEnv)
    (x : Option ResolvedItem) (h : _resolve_item env it = .ok x) :
    elemOK x := by
  intro c hc
  subst hc
  obtain ⟨hkey, v, hv, hdeps⟩ := resolve_ok_some env it c h
  have hik : it.key = k := hwk (k, it) hmem
  rw [hkey, hik, hdeps]
  exact hns (k, it) hmem v hv

theorem pushLeftDeps_spec (env : RunEnv) (r2 : Reactor) :
    ∀ (L : List String) (q q2 : List (Option ResolvedItem)),
      pushLeftDeps env r2 L q = .ok q2 →
      ∃ P, q2 = P ++ q ∧ P.length = L.length ∧
        ∀ x ∈ P, ∃ d it, d ∈ L ∧ rLookup r2 d = some it ∧
          _resolve_item env it = .ok x := by
  intro L
  induction L with
  | nil =>
    intro q q2 h
    cases h
    exact ⟨[], rfl, rfl, fun x hx => absurd hx (List.not_mem_nil x)⟩
  | cons d rest ih =>
    intro q q2 h
    unfold pushLeftDeps at h
    split at h
    · cases h
    next it hl =>
      split at h
      · cases h
      next x hres =>
        obtain ⟨P, hq2, hlen, hmem⟩ := ih (x :: q) q2 h
        refine ⟨P ++ [x], by simp [hq2], by simp [hlen], ?_⟩
        intro y hy
        rcases List.mem_append.mp hy with hp | hx
        · obtain ⟨d2, it2, hd2, hl2, hr2⟩ := hmem y hp
          exact ⟨d2, it2, List.mem_cons_of_mem d hd2, hl2, hr2⟩
        · rw [List.mem_singleton.mp hx]
          exact ⟨d, it, List.mem_cons_self d rest, hl, hres⟩

theorem enqueueDependents_spec (env : RunEnv) (r2 : Reactor) :
    ∀ (ds processed : List String) (q q2 : List (Option ResolvedItem)),
      enqueueDependents env r2 processed ds q = .ok q2 →
      ∃ P, q2 = q ++ P ∧
        ∀ x ∈ P, ∃ d it, rLookup r2 d = some it ∧
          _resolve_item env it = .ok x := by
  intro ds
  induction ds with
  | nil =>
    intro processed q q2 h
    cases h
    exact ⟨[], by simp, fun x hx => absurd hx (List.not_mem_nil x)⟩
  | cons d rest ih =>
    intro processed q q2 h
    unfold enqueueDependents at h
    split at h
    · obtain ⟨P, hq2, hmem⟩ := ih processed q q2 h
      exact ⟨P, hq2, hmem⟩
    · split at h
      · cases h
      next it hl =>
        split at h
        · cases h
        next x hres =>
          obtain ⟨P, hq2, hmem⟩ := ih processed (q ++ [x]) q2 h
          refine ⟨[x] ++ P, by simp [hq2], ?_⟩
          intro y hy
          rcases List.mem_append.mp hy with hx | hp
          · rw [List.mem_singleton.mp hx]
            exact ⟨d, it, hl, hres⟩
          · exact hmem y hp

theorem resolveItems_spec (env : RunEnv) :
    ∀ (l : List (String × ReactorItem)) (q : List (Option ResolvedItem)),
      resolveItems env l = .ok q →
      ∀ x ∈ q, ∃ kv, kv ∈ l ∧ _resolve_item env kv.2 = .ok x := by
  intro l
  induction l with
  | nil =>
    intro q h x hx
    cases h
    exact absurd hx (List.not_mem_nil x)
  | cons kv rest ih =>
    intro q h x hx
    unfold resolveItems at h
    split at h
    · cases h
    next y hres =>
      split at h
      · cases h
      next q3 hrest =>
        cases h
        rcases List.mem_cons.mp hx with he | hm
        · exact ⟨kv, List.mem_cons_self kv rest, he ▸ hres⟩
        · obtain ⟨kv2, hkv2, hr2⟩ := ih q3 hrest x hm
          exact ⟨kv2, List.mem_cons_of_mem kv hkv2, hr2⟩

theorem find_unprocessed_nil (processed : List String) (c : ResolvedItem)
    (h : _find_unprocessed_dependencies processed c = []) :
    ∀ d ∈ c.dependencies, d ∈ processed := by
  intro d hd
  unfold _find_unprocessed_dependencies at h
  rw [List.filter_eq_nil_iff] at h
  have := h d hd
  simp at this
  exact this

theorem good_append_setv (tr : List Event) (n : String) (v : Option Int)
    (h : ∀ e ∈ tr, goodEvent e) :
    ∀ e ∈ tr ++ [Event.setv n v], goodEvent e := by
  intro e he
  rcases List.mem_append.mp he with hm | hs
  · exact h e hm
  · rw [List.mem_singleton.mp hs]
    trivial

theorem good_append_invoke (tr : List Event) (k : String) (ty : RType)
    (deps processed : List String)
    (h : ∀ e ∈ tr, goodEvent e) (hd : ∀ d ∈ deps, d ∈ processed) :
    ∀ e ∈ tr ++ [Event.invoke k ty deps processed], goodEvent e := by
  intro e he
  rcases List.mem_append.mp he with hm | hs
  · exact h e hm
  · rw [List.mem_singleton.mp hs]
    exact hd

theorem process_err_cases (env : RunEnv) (c : ResolvedItem)
    (ctx : List String → CtxSt) (e1 : PyErr)
    (h : _process_item env c ctx = .error e1) :
    e1 = .abortFunction ∨ e1 = .abortExecution := by
  unfold _process_item at h
  cases hty : c.type_ <;> simp only [hty] at h <;> split at h
  all_goals
    first
      | (cases h; exact Or.inl rfl)
      | (cases h; exact Or.inr rfl)
      | cases h

theorem good_ite (b : Prop) [Decidable b] (t1 t2 : List Event)
    (h1 : ∀ e ∈ t1, goodEvent e) (h2 : ∀ e ∈ t2, goodEvent e) :
    ∀ e ∈ (if b then t1 else t2), goodEvent e := by
  split
  · exact h1
  · exact h2

set_option maxHeartbeats 1000000

theorem runLoop_invariant (env : RunEnv) (cbs : Callbacks) (r2 : Reactor)
    (hns : ∀ kv ∈ r2, ∀ v ∈ kv.2.variants, ¬ kv.1 ∈ v.dependencies)
    (hwk : ∀ kv ∈ r2, kv.2.key = kv.1) :
    ∀ (fuel : Nat) (queue : List (Option ResolvedItem))
      (processed : List String) (st : CtxSt) (tr : List Event),
      (∀ x ∈ queue, elemOK x) → (∀ e ∈ tr, goodEvent e) →
      ∀ e ∈ (_runLoop env cbs r2 fuel queue processed st tr).trace,
        goodEvent e := by
  intro fuel
  induction fuel with
  | zero =>
    intro queue processed st tr _ htr e he
    exact htr e he
  | succ fuel ih =>
    intro queue processed st tr hq htr e he
    cases queue with
    | nil => exact htr e he
    | cons x0 rest =>
      cases x0 with
      | none => exact htr e he
      | some c =>
        simp only [_runLoop] at he
        split at he
        · exact ih rest processed st tr
            (fun x hx => hq x (List.mem_cons_of_mem _ hx)) htr e he
        next hcont =>
          split at he
          · exact htr e he
          next q1 hpush1 =>
            split at he
            · exact htr e he
            next q2 hpush2 =>
              split at he
              · exact htr e he
              next x q2rest =>
                have hq2OK : ∀ y ∈ x :: q2rest, elemOK y := by
                  obtain ⟨P2, hq2eq, _, hmem2⟩ :=
                    pushLeftDeps_spec env r2 _ _ _ hpush2
                  obtain ⟨P1, hq1eq, _, hmem1⟩ :=
                    pushLeftDeps_spec env r2 _ _ _ hpush1
                  intro y hy
                  rw [hq2eq] at hy
                  rcases List.mem_append.mp hy with h2 | h1
                  · obtain ⟨d, it, _, hl, hres⟩ := hmem2 y h2
                    exact resolve_elemOK r2 hns hwk d it
                      (rLookup_mem r2 d it hl) env y hres
                  · rw [hq1eq] at h1
                    rcases List.mem_append.mp h1 with h3 | h0
                    · obtain ⟨d, it, _, hl, hres⟩ := hmem1 y h3
                      exact resolve_elemOK r2 hns hwk d it
                        (rLookup_mem r2 d it hl) env y hres
                    · exact hq y h0
                have hq2restOK : ∀ y ∈ q2rest, elemOK y := by
                  intro y hy
                  exact hq2OK y (List.mem_cons_of_mem x hy)
                split at he
                · exact ih (x :: q2rest) processed st tr hq2OK htr e he
                next hxc =>
                  have hx : x = some c := of_not_not hxc
                  have hL : _find_unprocessed_dependencies processed c = [] := by
                    by_contra hLne
                    obtain ⟨P2, hq2eq, hlen2, hmem2⟩ :=
                      pushLeftDeps_spec env r2 _ _ _ hpush2
                    cases hP2 : P2 with
                    | nil =>
                      rw [hP2] at hlen2
                      exact hLne (List.eq_nil_of_length_eq_zero hlen2.symm)
                    | cons y P2tail =>
                      rw [hP2, List.cons_append] at hq2eq
                      have hxy : x = y := by
                        injection hq2eq
                      have hymem : y ∈ P2 := by
                        rw [hP2]
                        exact List.mem_cons_self y P2tail
                      obtain ⟨d, it, hdL, hl, hres⟩ := hmem2 y hymem
                      rw [← hxy, hx] at hres
                      obtain ⟨hkey, _, _, _⟩ := resolve_ok_some env it c hres
                      have hitk : it.key = d :=
                        hwk (d, it) (rLookup_mem r2 d it hl)
                      have hdc : d ∈ c.dependencies :=
                        (List.mem_filter.mp hdL).1
                      have hcOK := hq (some c) (List.mem_cons_self _ _) c rfl
                      rw [hkey, hitk] at hcOK
                      exact hcOK hdc
                  have hdeps : ∀ d ∈ c.dependencies, d ∈ processed :=
                    find_unprocessed_nil processed c hL
                  have htr1 : ∀ e2 ∈ tr ++
                      [Event.invoke c.key c.type_ c.dependencies processed],
                      goodEvent e2 :=
                    good_append_invoke tr c.key c.type_ c.dependencies
                      processed htr hdeps
                  have hq3OK : ∀ (q3 : List (Option ResolvedItem)),
                      enqueueDependents env r2 (addKey processed c.key)
                        c.dependents q2rest = .ok q3 →
                      ∀ y ∈ q3, elemOK y := by
                    intro q3 henq y hy
                    obtain ⟨P3, hq3eq, hmem3⟩ :=
                      enqueueDependents_spec env r2 _ _ _ q3 henq
                    rw [hq3eq] at hy
                    rcases List.mem_append.mp hy with h0 | h3
                    · exact hq2restOK y h0
                    · obtain ⟨d, it, hl, hres⟩ := hmem3 y h3
                      exact resolve_elemOK r2 hns hwk d it
                        (rLookup_mem r2 d it hl) env y hres
                  rcases hproc : _process_item env c (cbs.getCtx st)
                    with e1 | value
                  · rcases process_err_cases env c (cbs.getCtx st) e1 hproc
                      with he1 | he1 <;> subst he1 <;>
                      simp only [hproc] at he
                    · split at he
                      · exact ih q2rest (addKey processed c.key)
                          (cbs.setCtx st c.name none) _ hq2restOK
                          (good_append_setv _ c.name none htr1) e he
                      · exact ih q2rest (addKey processed c.key) st _
                          hq2restOK htr1 e he
                    · exact htr1 e he
                  · simp only [hproc] at he
                    by_cases hout : c.type_ ≠ RType.OUTPUT
                    · simp only [if_pos hout] at he
                      have htr2 : ∀ e2 ∈ (tr ++
                          [Event.invoke c.key c.type_ c.dependencies processed])
                          ++ [Event.setv c.name value], goodEvent e2 :=
                        good_append_setv _ c.name value htr1
                      split at he
                      · split at he
                        · exact htr2 e he
                        next q3 henq =>
                          exact ih q3 (addKey processed c.key) _ _
                            (hq3OK q3 henq) htr2 e he
                      · exact ih q2rest (addKey processed c.key) _ _
                          hq2restOK htr2 e he
                    · simp only [if_neg hout] at he
                      split at he
                      · split at he
                        · exact htr1 e he
                        next q3 henq =>
                          exact ih q3 (addKey processed c.key) _ _
                            (hq3OK q3 henq) htr1 e he
                      · exact ih q2rest (addKey processed c.key) _ _
                          hq2restOK htr1 e he

/-- C1: in every run over a well-keyed reactor that passes validation,
whenever a Compute- or Output-type cell's function is invoked, every key
in its resolved dependency list is already in the processed set — a cell
is never invoked before all its resolved dependencies have been processed
in that run, even when it reached the front of the queue before them. -/
theorem c1_theorem (env : RunEnv) (cbs : Callbacks) (reactor : Reactor)
    (fuel : Nat) (st : CtxSt) (hwk : wellKeyedB reactor = true) :
    ∀ (key : String) (ty : RType) (deps processedAtCall : List String),
      Event.invoke key ty deps processedAtCall ∈
        (_run env cbs reactor fuel st).trace →
      ty = .COMPUTE ∨ ty = .OUTPUT →
      ∀ d ∈ deps, d ∈ processedAtCall := by
  intro key ty deps pac hmem _
  unfold _run at hmem
  split at hmem
  · exact absurd hmem (List.not_mem_nil _)
  next r2 hchk =>
    split at hmem
    · exact absurd hmem (List.not_mem_nil _)
    next q hinit =>
      obtain ⟨hwk2, hns⟩ := check_noSelfDep reactor r2 hchk hwk
      have hqOK : ∀ x ∈ q, elemOK x := by
        intro x hx
        obtain ⟨kv, hkv, hres⟩ := resolveItems_spec env _ q hinit x hx
        have hkv2 : kv ∈ r2 := List.mem_of_mem_filter hkv
        exact resolve_elemOK r2 hns hwk2 kv.1 kv.2 hkv2 env x hres
      exact runLoop_invariant env cbs r2 hns hwk2 fuel q [] st []
        hqOK (fun e2 he2 => absurd he2 (List.not_mem_nil e2))
        (Event.invoke key ty deps pac) hmem

theorem c1_witness :
    wellKeyedB rW1 = true ∧
    Event.invoke "b" .COMPUTE ["a"] ["a"] ∈
      (_run envW1 cbsStd rW1 16 []).trace ∧
    "a" ∈ (["a"] : List String) := by
  refine ⟨rfl, by decide, ?_⟩
  exact c1_theorem envW1 cbsStd rW1 16 [] rfl "b" .COMPUTE ["a"] ["a"]
    (by decide) (Or.inl rfl) "a" (by decide)

end CharmsDecl
